import Mathlib

/-!
# Verification of the visual-tree-explorer dependency-analysis engine

This file gives a shallow embedding, in Lean 4, of the static dependency-analysis
engine of the `visual-tree-explorer` repository (`src/dependency-graph.ts` and the
AST symbol extractor appended to `src/explorer.ts`), and proves or refutes the
frozen specification claims about it.

Modelling conventions:
* The file system is a finite tree (`FSEntry`) together with the analyzer's
  absolute root path (`FileSys`).  A missing root models `fs.stat` throwing
  (ENOENT); a directory with `readable := false` models `fs.readdir` throwing;
  a file with `content := none` models `fs.readFile` throwing.
* File content is modelled at statement granularity (`Stmt`): one constructor
  per syntactic form the extractor reacts to.  Both the TypeScript AST walk and
  the regular-expression pass of `dependency-graph.ts` are embedded as functions
  over this statement list; the doc comment of each function records which
  concrete source behaviour it translates.
* Node's `path` module (posix flavour) is embedded by structurally recursive
  string functions (`pathSegments`, `pathResolve`, `dirname`, ...), so that all
  definitions evaluate inside the kernel.
* JavaScript `Map`s are embedded as insertion-ordered association lists;
  JavaScript `Set`s as lists whose membership is what matters.
* JavaScript numbers appearing as counters are `Nat`; the cohesion ratio and
  the average-dependencies statistic are `ℚ`.
-/

set_option maxRecDepth 10000

namespace VTE

/-! ## String and path utilities (embedding Node's posix `path` module)

`String.splitOn`, `String.startsWith` and friends are not used because they do
not reduce inside the kernel; structurally recursive equivalents are defined
instead. -/

/-- `pre` is a prefix of `s` (embeds JavaScript `String.prototype.startsWith`). -/
def strStartsWith (s pre : String) : Bool :=
  pre.data.isPrefixOf s.data

/-- Split a character list on a separator character.  Always returns at least
one chunk, like JavaScript `String.prototype.split`. -/
def splitOnChar (c : Char) : List Char → List (List Char)
  | [] => [[]]
  | x :: xs =>
    let r := splitOnChar c xs
    if x = c then [] :: r
    else
      match r with
      | [] => [[x]]
      | h :: t => (x :: h) :: t

/-- The non-empty `/`-separated segments of a path string. -/
def pathSegments (p : String) : List String :=
  ((splitOnChar '/' p.data).map (fun l => (⟨l⟩ : String))).filter (fun s => s ≠ "")

/-- Resolve `.` and `..` segments, as Node's `path.resolve`/`path.join`
normalization does at the root: `..` at the top is dropped. -/
def normSegments (segs : List String) : List String :=
  segs.foldl
    (fun acc seg =>
      if seg = "." then acc
      else if seg = ".." then acc.dropLast
      else acc ++ [seg])
    []

/-- Render absolute-path segments as a string (`[] ↦ "/"`). -/
def joinSegs (segs : List String) : String :=
  "/" ++ String.intercalate "/" segs

/-- Node `path.resolve(base, rel)` for an absolute `base`: an absolute `rel`
wins, otherwise `rel` is appended to `base`; the result is normalized. -/
def pathResolve (base rel : String) : String :=
  if strStartsWith rel "/" then joinSegs (normSegments (pathSegments rel))
  else joinSegs (normSegments (pathSegments base ++ pathSegments rel))

/-- Node `path.join(a, b)` for an absolute `a`. -/
def pathJoin (a b : String) : String :=
  joinSegs (normSegments (pathSegments a ++ pathSegments b))

/-- Node `path.dirname`: for an absolute path, everything before the last
segment; for a relative path, `"."` when there is no directory part. -/
def dirname (p : String) : String :=
  let segs := pathSegments p
  if strStartsWith p "/" then joinSegs segs.dropLast
  else
    match segs.dropLast with
    | [] => "."
    | init => String.intercalate "/" init

/-- Node `path.basename` (for the paths this development feeds it). -/
def basename (p : String) : String :=
  (pathSegments p).getLast?.getD p

/-- Drop the longest common prefix of two segment lists, returning the two
remainders. -/
def dropCommonPrefix : List String → List String → (List String × List String)
  | a :: as, b :: bs =>
    if a = b then dropCommonPrefix as bs else (a :: as, b :: bs)
  | as, bs => (as, bs)

/-- Node `path.relative(fromP, toP)` for absolute arguments: climb out of the
non-shared part of `fromP` with `..` segments, then descend into `toP`. -/
def pathRelative (fromP toP : String) : String :=
  let f := normSegments (pathSegments fromP)
  let t := normSegments (pathSegments toP)
  let (fRest, tRest) := dropCommonPrefix f t
  String.intercalate "/" (List.replicate fRest.length ".." ++ tRest)

/-- Node `path.extname`: the suffix of the basename from its last dot, with a
leading-dot-only basename (hidden file) having no extension. -/
def extname (p : String) : String :=
  let parts := splitOnChar '.' (basename p).data
  match parts with
  | [] => ""
  | [_] => ""
  | first :: rest =>
    if first = [] ∧ rest.length = 1 then ""
    else "." ++ (⟨rest.getLast?.getD []⟩ : String)

/-- JavaScript `String.prototype.toLowerCase` restricted to ASCII, which is all
the extension dispatch in `ast-symbols.ts` needs. -/
def strToLower (s : String) : String :=
  ⟨s.data.map Char.toLower⟩

/-! ## Data model (embedding `src/types.ts`) -/

/-- `enum DependencyType` of `types.ts`. -/
inductive DependencyType where
  | Import
  | Require
  | DynamicImport
  | TypeOnly
deriving DecidableEq, Repr

/-- `interface DependencyInfo` of `types.ts`: one raw import record.
`resolvedPath := none` embeds the `resolvedPath?` property being `undefined`;
`imported := none` embeds the optional `imported?` property being absent. -/
structure DependencyInfo where
  path : String
  resolvedPath : Option String
  type : DependencyType
  imported : Option (List String)
  isExternal : Bool
deriving DecidableEq, Repr

/-- `interface DependencyNode` of `types.ts`.  The `type` field is the literal
`'file'` or `'external'` tag. -/
structure DependencyNode where
  path : String
  name : String
  type : String
  exports : List String
  imports : List DependencyInfo
  dependents : List String
  cluster : Option String
deriving DecidableEq, Repr

/-- `interface DependencyEdge` of `types.ts` (the `from` and `to` fields keep
their source names via guillemets, since both are Lean keywords). -/
structure DependencyEdge where
  «from» : String
  «to» : String
  type : DependencyType
  weight : Nat
  imported : Option (List String)
deriving DecidableEq, Repr

/-- `interface CircularDependency` of `types.ts`; `type` is the literal
`'direct'` or `'indirect'`. -/
structure CircularDependency where
  cycle : List String
  length : Nat
  type : String
deriving DecidableEq, Repr

/-- `interface ModuleCluster` of `types.ts`; `cohesion` is the 0–1 score. -/
structure ModuleCluster where
  id : String
  name : String
  files : List String
  internalDependencies : Nat
  externalDependencies : Nat
  cohesion : ℚ
deriving DecidableEq, Repr

/-- `interface DependencyStats` of `types.ts`. -/
structure DependencyStats where
  totalFiles : Nat
  totalDependencies : Nat
  externalDependencies : Nat
  circularDependencies : Nat
  maxDepth : Nat
  avgDependenciesPerFile : ℚ
  mostConnectedFile : String
  leastConnectedFiles : List String
deriving DecidableEq, Repr

/-- The node map: `Map<string, DependencyNode>` embedded as an
insertion-ordered association list. -/
abbrev NodeMap := List (String × DependencyNode)

/-- `Map.get`: the first entry with the given key. -/
def lookupNode (m : NodeMap) (k : String) : Option DependencyNode :=
  (m.find? (fun kn => kn.1 = k)).map (fun kn => kn.2)

/-- `Map.has`. -/
def hasKey (m : NodeMap) (k : String) : Bool :=
  m.any (fun kn => kn.1 = k)

/-- `Map.set`: overwrite the existing entry in place, else append. -/
def setKey (m : NodeMap) (k : String) (v : DependencyNode) : NodeMap :=
  if hasKey m k then m.map (fun kn => (kn.1, if kn.1 = k then v else kn.2))
  else m ++ [(k, v)]

/-- `interface DependencyGraph` of `types.ts`. -/
structure DependencyGraph where
  nodes : NodeMap
  edges : List DependencyEdge
  clusters : List ModuleCluster
  circularDependencies : List CircularDependency
  stats : DependencyStats
deriving DecidableEq, Repr

/-! ## File content and file-system model -/

/-- One top-level syntactic occurrence that the import/export extraction of
`dependency-graph.ts` reacts to.  This is the statement-granularity abstraction
of file text:

* `importStatic spec d named ns typeOnly` stands for the statement
  `import [type] D, { a, b } / * as N from 'spec'` (real syntax carries at most
  one of the named list and the namespace binding; the model is permissive).
* `requireCall spec` stands for an occurrence of `require('spec')`.
* `dynamicImport spec` stands for an occurrence of `import('spec')`.
* `exportedDecl names` stands for an exported top-level declaration (or export
  clause) contributing `names` to the file's export list.
* `other` is any other text, invisible to both extraction passes. -/
inductive Stmt where
  | importStatic (spec : String) (defaultImp : Option String)
      (named : List String) (namespaceImp : Option String) (typeOnly : Bool)
  | requireCall (spec : String)
  | dynamicImport (spec : String)
  | exportedDecl (names : List String)
  | other
deriving DecidableEq, Repr

/-- A file-system entry.  `readable := false` on a directory models
`fs.readdir` throwing (EACCES); `content := none` on a file models
`fs.readFile` throwing. -/
inductive FSEntry where
  | file (name : String) (content : Option (List Stmt))
  | dir (name : String) (readable : Bool) (entries : List FSEntry)
deriving Repr

/-- The name of an entry. -/
def FSEntry.name : FSEntry → String
  | .file n _ => n
  | .dir n _ _ => n

/-- The world the analyzer runs in: its resolved absolute root path and the
entry found there.  `root := none` models `fs.stat(rootPath)` throwing
(nonexistent root).  Nothing exists outside the root in this model. -/
structure FileSys where
  rootPath : String
  root : Option FSEntry

/-- Strip `pre` from the front of `l`, if it is a prefix. -/
def stripPrefixSegs : List String → List String → Option (List String)
  | [], t => some t
  | _ :: _, [] => none
  | p :: ps, t :: ts => if p = t then stripPrefixSegs ps ts else none

/-- Walk an entry along `segs` and report whether a file is reached.
Children of an unreadable directory are invisible in this model. -/
def entryStatIsFile : FSEntry → List String → Bool
  | .file _ _, [] => true
  | .dir _ _ _, [] => false
  | .file _ _, _ :: _ => false
  | .dir _ readable es, seg :: rest =>
    readable &&
      match es.find? (fun e => e.name = seg) with
      | some e => entryStatIsFile e rest
      | none => false

/-- `statSync(p).isFile()` for an absolute path `p`. -/
def FileSys.statIsFile (fs : FileSys) (p : String) : Bool :=
  match fs.root with
  | none => false
  | some r =>
    match stripPrefixSegs (normSegments (pathSegments fs.rootPath))
        (normSegments (pathSegments p)) with
    | none => false
    | some rest => entryStatIsFile r rest

/-- Walk an entry along `segs` returning the file content, if a readable file
is reached. -/
def entryReadFile : FSEntry → List String → Option (List Stmt)
  | .file _ content, [] => content
  | .dir _ _ _, [] => none
  | .file _ _, _ :: _ => none
  | .dir _ readable es, seg :: rest =>
    if readable then
      match es.find? (fun e => e.name = seg) with
      | some e => entryReadFile e rest
      | none => none
    else none

/-- `fs.readFile(p)` for an absolute path `p`; `none` models the read throwing. -/
def FileSys.readFile (fs : FileSys) (p : String) : Option (List Stmt) :=
  match fs.root with
  | none => none
  | some r =>
    match stripPrefixSegs (normSegments (pathSegments fs.rootPath))
        (normSegments (pathSegments p)) with
    | none => none
    | some rest => entryReadFile r rest

/-! ## File collector (`collectFiles`, dependency-graph.ts lines 69–102) -/

/-- `private fileExtensions` of `class DependencyAnalyzer`. -/
def fileExtensions : List String :=
  [".ts", ".tsx", ".js", ".jsx", ".mjs", ".cjs"]

mutual

/-- One iteration of the `for (const entry of entries)` loop inside
`traverse`: a directory not starting with `.` and not named `node_modules` is
descended into (an unreadable one contributes nothing, because `fs.readdir`
throws and the `catch` swallows it); a file with a recognized extension is
pushed. -/
def traverseEntry (dirPath : String) : FSEntry → List String
  | .dir nm readable sub =>
    if ¬strStartsWith nm "." ∧ nm ≠ "node_modules" then
      if readable then traverseEntries (pathJoin dirPath nm) sub else []
    else []
  | .file nm _ =>
    if fileExtensions.contains (extname nm) then [pathJoin dirPath nm] else []

/-- The `traverse` loop body over a directory listing, in listing order. -/
def traverseEntries (dirPath : String) : List FSEntry → List String
  | [] => []
  | e :: es => traverseEntry dirPath e ++ traverseEntries dirPath es

end

/-- `collectFiles(targetPath)`: `fs.stat` the target (throwing — `.error` —
when it does not exist); a plain file is returned alone; a directory is
traversed depth-first in listing order.  `analyzeDependencies` always calls it
with `targetPath = rootPath`. -/
def collectFiles (fs : FileSys) : Except Unit (List String) :=
  match fs.root with
  | none => .error ()
  | some (.file _ _) => .ok [fs.rootPath]
  | some (.dir _ readable entries) =>
    .ok (if readable then traverseEntries fs.rootPath entries else [])

/-! ## Dependency resolver (`resolveImportPath`, lines 367–412) -/

/-- `isExternalDependency`: external iff the specifier starts with neither `.`
nor `/`. -/
def isExternalDependency (importPath : String) : Bool :=
  ¬strStartsWith importPath "." ∧ ¬strStartsWith importPath "/"

/-- `resolveImportPath(importPath, fromFile)`: external specifiers are never
resolved; for a specifier starting with `.` the loop tries, for each recognized
extension in priority order, first the resolved specifier with the extension
appended and then an `index` file of that extension inside the specifier
directory, returning the root-relative path of the first hit; a specifier
starting with `/` falls through every branch and is unresolved. -/
def resolveImportPath (fs : FileSys) (importPath fromFile : String) :
    Option String :=
  if isExternalDependency importPath then none
  else
    let fromDir := dirname fromFile
    if strStartsWith importPath "." then
      let resolved := pathResolve fromDir importPath
      fileExtensions.findSome? fun ext =>
        let withExt := resolved ++ ext
        if fs.statIsFile withExt then some (pathRelative fs.rootPath withExt)
        else
          let indexPath := pathJoin resolved ("index" ++ ext)
          if fs.statIsFile indexPath then
            some (pathRelative fs.rootPath indexPath)
          else none
    else none

/-! ## Import/export extraction (lines 130–365) -/

/-- `extractImportedNames`: default import first, then named imports, then a
namespace import rendered as `* as N`. -/
def extractImportedNames (defaultImp : Option String) (named : List String)
    (namespaceImp : Option String) : List String :=
  defaultImp.toList ++ named ++ (namespaceImp.map (fun n => "* as " ++ n)).toList

/-- The records `visitImportNodes` pushes for one node of the TypeScript AST:
an `ImportDeclaration` yields a static (or type-only) record with its bound
names; `require('x')` and `import('x')` call expressions yield require/dynamic
records without an `imported` list. -/
def astImportsOfStmt (fs : FileSys) (filePath : String) :
    Stmt → List DependencyInfo
  | .importStatic spec d named ns typeOnly =>
    [{ path := spec
       resolvedPath := resolveImportPath fs spec filePath
       type := if typeOnly then .TypeOnly else .Import
       imported := some (extractImportedNames d named ns)
       isExternal := isExternalDependency spec }]
  | .requireCall spec =>
    [{ path := spec
       resolvedPath := resolveImportPath fs spec filePath
       type := .Require
       imported := none
       isExternal := isExternalDependency spec }]
  | .dynamicImport spec =>
    [{ path := spec
       resolvedPath := resolveImportPath fs spec filePath
       type := .DynamicImport
       imported := none
       isExternal := isExternalDependency spec }]
  | _ => []

/-- `visitImportNodes` over the whole source file: the recursive AST walk
visits every occurrence once, in source order. -/
def visitImportNodes (fs : FileSys) (filePath : String)
    (content : List Stmt) : List DependencyInfo :=
  content.flatMap (astImportsOfStmt fs filePath)

/-- The ES6-import regular expression of `extractDependenciesWithRegex`
applied to the whole content: it matches every plain static import (the
pattern requires a bare `import ... from`, so `import type` statements do not
match), with `imported` left `undefined` when no binding was captured. -/
def regexES6Imports (fs : FileSys) (filePath : String)
    (content : List Stmt) : List DependencyInfo :=
  content.flatMap fun s =>
    match s with
    | .importStatic spec d named ns typeOnly =>
      if typeOnly then []
      else
        [{ path := spec
           resolvedPath := resolveImportPath fs spec filePath
           type := .Import
           imported :=
             (let l := extractImportedNames d named ns
              if l.isEmpty then none else some l)
           isExternal := isExternalDependency spec }]
    | _ => []

/-- The CommonJS-require regular expression pass. -/
def regexRequires (fs : FileSys) (filePath : String)
    (content : List Stmt) : List DependencyInfo :=
  content.flatMap fun s =>
    match s with
    | .requireCall spec =>
      [{ path := spec
         resolvedPath := resolveImportPath fs spec filePath
         type := .Require
         imported := none
         isExternal := isExternalDependency spec }]
    | _ => []

/-- The dynamic-import regular expression pass. -/
def regexDynamicImports (fs : FileSys) (filePath : String)
    (content : List Stmt) : List DependencyInfo :=
  content.flatMap fun s =>
    match s with
    | .dynamicImport spec =>
      [{ path := spec
         resolvedPath := resolveImportPath fs spec filePath
         type := .DynamicImport
         imported := none
         isExternal := isExternalDependency spec }]
    | _ => []

/-- `extractDependenciesWithRegex`: the three regular expressions are run one
after the other over the same content, appending to the same array. -/
def extractDependenciesWithRegex (fs : FileSys) (filePath : String)
    (content : List Stmt) : List DependencyInfo :=
  regexES6Imports fs filePath content ++ regexRequires fs filePath content
    ++ regexDynamicImports fs filePath content

/-- `extractDependencies`: the AST walk runs for `.ts`/`.tsx` files, and the
regex pass then always runs on the same content, appending to the same array
(``// Fall back to regex parsing for all files or as backup``). -/
def extractDependencies (fs : FileSys) (filePath : String)
    (content : List Stmt) : List DependencyInfo :=
  (if extname filePath = ".ts" ∨ extname filePath = ".tsx" then
    visitImportNodes fs filePath content
  else []) ++ extractDependenciesWithRegex fs filePath content

/-- `extractExports`: on this statement model the AST walk (used for
`.ts`/`.tsx`) and the regex fallback (used otherwise) both produce exactly the
declared exported names, in source order. -/
def extractExports (content : List Stmt) : List String :=
  content.flatMap fun s =>
    match s with
    | .exportedDecl names => names
    | _ => []

/-- `parseFile`: read the file (a throwing read is swallowed — the file is
silently skipped and produces no node), extract imports and exports, and build
the node keyed by the root-relative path. -/
def parseFile (fs : FileSys) (filePath : String) :
    Option (String × DependencyNode) :=
  match fs.readFile filePath with
  | none => none
  | some content =>
    let relativePath := pathRelative fs.rootPath filePath
    some (relativePath,
      { path := relativePath
        name := basename filePath
        type := "file"
        exports := extractExports content
        imports := extractDependencies fs filePath content
        dependents := []
        cluster := none })

/-! ## Graph builder (`buildDependencyGraph`, lines 414–438) -/

/-- Append `src` to the `dependents` list of the node keyed `target`
(`targetNode.dependents.push(filePath)`). -/
def pushDependent (m : NodeMap) (target src : String) : NodeMap :=
  m.map fun kn =>
    (kn.1,
      if kn.1 = target then
        { kn.2 with dependents := kn.2.dependents ++ [src] }
      else kn.2)

/-- The inner `for (const dep of node.imports)` loop: an edge is created, and
the target's dependents extended, exactly when the import has a defined
`resolvedPath` that is a key of the (current) node map. -/
def addEdgesForNode (filePath : String) (imports : List DependencyInfo)
    (acc : NodeMap × List DependencyEdge) : NodeMap × List DependencyEdge :=
  imports.foldl
    (fun acc dep =>
      match dep.resolvedPath with
      | some t =>
        if hasKey acc.1 t then
          (pushDependent acc.1 t filePath,
            acc.2 ++ [{ «from» := filePath, «to» := t, type := dep.type,
                        weight := 1, imported := dep.imported }])
        else acc
      | none => acc)
    acc

/-- `buildDependencyGraph`: iterate over the node-map entries (whose keys and
`imports` are never changed by the loop — only `dependents` lists are pushed
to), producing the edge list and the dependents-updated map. -/
def buildDependencyGraph (nodes : NodeMap) : NodeMap × List DependencyEdge :=
  nodes.foldl (fun acc kn => addEdgesForNode kn.1 kn.2.imports acc) (nodes, [])

/-! ## Cycle detector (`detectCircularDependencies`, lines 440–486) -/

/-- The cycle record pushed when a back edge to `target` is found while the
DFS path is `path`: `cycle = path.slice(path.indexOf(target)) ++ [target]`,
`length = cycle.length - 1`, and the classification compares the *array*
length — including the closing repetition of `target` — with 2. -/
def mkCycle (path : List String) (target : String) : CircularDependency :=
  let cycleStart := List.indexOf target path
  let cycle := path.drop cycleStart ++ [target]
  { cycle := cycle
    length := cycle.length - 1
    type := if cycle.length = 2 then "direct" else "indirect" }

/-- `dfsForCycles(current, visited, recursionStack, path)`.  The recursion
stack and path are restored by the source on exit (`delete`/`pop`), so they
are plain parameters here; the visited set and the accumulated cycle list are
threaded through and returned.  The `fuel` argument bounds the recursion
depth; `detectCircularDependencies` supplies more fuel than the depth can
reach, since every recursive call targets a node not yet visited. -/
def dfsForCycles (nodes : NodeMap) :
    Nat → String → List String → List String → List String →
      List CircularDependency → List String × List CircularDependency
  | 0, _, visited, _, _, cycles => (visited, cycles)
  | fuel + 1, current, visited, recStack, path, cycles =>
    let visited := if visited.contains current then visited
      else visited ++ [current]
    let recStack := recStack ++ [current]
    let path := path ++ [current]
    match lookupNode nodes current with
    | none => (visited, cycles)
    | some node =>
      node.imports.foldl
        (fun (acc : List String × List CircularDependency) dep =>
          match dep.resolvedPath with
          | some target =>
            if hasKey nodes target then
              if recStack.contains target then
                (acc.1, acc.2 ++ [mkCycle path target])
              else if ¬acc.1.contains target then
                dfsForCycles nodes fuel target acc.1 recStack path acc.2
              else acc
            else acc
          | none => acc)
        (visited, cycles)

/-- `detectCircularDependencies`: run the DFS from every not-yet-visited node,
in node-map order. -/
def detectCircularDependencies (nodes : NodeMap) : List CircularDependency :=
  (nodes.foldl
    (fun (acc : List String × List CircularDependency) kn =>
      if acc.1.contains kn.1 then acc
      else dfsForCycles nodes (nodes.length + 1) kn.1 acc.1 [] [] acc.2)
    ([], [])).2

/-! ## Cluster calculator (`calculateClusters`, lines 488–544) -/

/-- The grouping key: `dirname` of the (root-relative) node key; files directly
at the root (`dirname = "."`) group under the sentinel `"root"`, others under
the first path segment. -/
def clusterKey (filePath : String) : String :=
  let dir := dirname filePath
  if dir = "." then "root"
  else (pathSegments dir).headD dir

/-- `node.cluster = dirName` on the node keyed `target`. -/
def setClusterOn (m : NodeMap) (target cid : String) : NodeMap :=
  m.map fun kn =>
    (kn.1, if kn.1 = target then { kn.2 with cluster := some cid } else kn.2)

/-- The first loop of `calculateClusters`: create each cluster on first sight
(insertion order), push the file into its cluster, and stamp the cluster id
onto the node. -/
def assignClusters (nodes : NodeMap) : NodeMap × List ModuleCluster :=
  nodes.foldl
    (fun (acc : NodeMap × List ModuleCluster) kn =>
      let dirName := clusterKey kn.1
      let clusters :=
        if acc.2.any (fun c => c.id = dirName) then acc.2
        else acc.2 ++ [{ id := dirName, name := dirName, files := [],
                         internalDependencies := 0, externalDependencies := 0,
                         cohesion := 0 }]
      let clusters := clusters.map fun c =>
        if c.id = dirName then { c with files := c.files ++ [kn.1] } else c
      (setClusterOn acc.1 kn.1 dirName, clusters))
    (nodes, [])

/-- One step of the per-import counting loop: only an import with a defined
`resolvedPath` is counted; it is internal when the target node exists and
carries the cluster's id, external otherwise (including a missing target
node). -/
def depClusterCount (nodes : NodeMap) (cid : String) (ie : Nat × Nat)
    (dep : DependencyInfo) : Nat × Nat :=
  match dep.resolvedPath with
  | none => ie
  | some rp =>
    match lookupNode nodes rp with
    | some depNode =>
      if depNode.cluster = some cid then (ie.1 + 1, ie.2) else (ie.1, ie.2 + 1)
    | none => (ie.1, ie.2 + 1)

/-- The imports of the node keyed `k` (empty when the key is absent). -/
def importsOf (nodes : NodeMap) (k : String) : List DependencyInfo :=
  ((lookupNode nodes k).map (fun n => n.imports)).getD []

/-- The metric loop of `calculateClusters` for one cluster: count the
internal/external imports of the member files and derive cohesion, which is
`internal / (internal + external)` guarded to `0` on a zero denominator. -/
def clusterMetrics (nodes : NodeMap) (c : ModuleCluster) : ModuleCluster :=
  let counts :=
    c.files.foldl
      (fun ie filePath =>
        (importsOf nodes filePath).foldl (depClusterCount nodes c.id) ie)
      (0, 0)
  { c with
    internalDependencies := counts.1
    externalDependencies := counts.2
    cohesion :=
      if counts.1 + counts.2 > 0 then
        (counts.1 : ℚ) / ((counts.1 : ℚ) + (counts.2 : ℚ))
      else 0 }

/-- `calculateClusters`: assignment pass, then the metric pass over the
cluster list (node clusters are all assigned before any metric is computed). -/
def calculateClusters (nodes : NodeMap) : NodeMap × List ModuleCluster :=
  let assigned := assignClusters nodes
  (assigned.1, assigned.2.map (clusterMetrics assigned.1))

/-! ## Statistics (`calculateStats` and `calculateMaxDepth`, lines 546–611) -/

/-- `calculateDepth(filePath, visited)` of `calculateMaxDepth`: the source
copies the visited set for every child call (`new Set(visited)`), so the
function is pure; `fuel` again bounds the depth and is supplied large enough. -/
def calculateDepth (nodes : NodeMap) :
    Nat → String → List String → Nat
  | 0, _, _ => 0
  | fuel + 1, filePath, visited =>
    if visited.contains filePath then 0
    else
      match lookupNode nodes filePath with
      | none => 0
      | some node =>
        let visited := visited ++ [filePath]
        let maxChild :=
          node.imports.foldl
            (fun m dep =>
              match dep.resolvedPath with
              | some rp =>
                if hasKey nodes rp then
                  max m (calculateDepth nodes fuel rp visited)
                else m
              | none => m)
            0
        1 + maxChild

/-- `calculateMaxDepth`: the maximum of `calculateDepth` over all nodes. -/
def calculateMaxDepth (nodes : NodeMap) : Nat :=
  nodes.foldl
    (fun maxDepth kn =>
      max maxDepth (calculateDepth nodes (nodes.length + 1) kn.1 []))
    0

/-- `calculateStats`: the `externalDependencies` statistic filters the *edge*
list, keeping an edge whenever its source node has at least one external raw
import; the most/least-connected scan runs over the node map in order, a later
node winning `mostConnectedFile` only with strictly more connections. -/
def calculateStats (nodes : NodeMap) (edges : List DependencyEdge)
    (cycles : List CircularDependency) : DependencyStats :=
  let totalFiles := nodes.length
  let totalDeps := edges.length
  let externalDeps :=
    (edges.filter fun e =>
      match lookupNode nodes e.«from» with
      | some fromNode => fromNode.imports.any (fun imp => imp.isExternal)
      | none => false).length
  let scan :=
    nodes.foldl
      (fun (acc : Nat × String × List String) kn =>
        let connections := kn.2.imports.length + kn.2.dependents.length
        let best :=
          if connections > acc.1 then (connections, kn.1) else (acc.1, acc.2.1)
        let least :=
          if connections = 0 then acc.2.2 ++ [kn.1] else acc.2.2
        (best.1, best.2, least))
      (0, "", [])
  { totalFiles := totalFiles
    totalDependencies := totalDeps
    externalDependencies := externalDeps
    circularDependencies := cycles.length
    maxDepth := calculateMaxDepth nodes
    avgDependenciesPerFile :=
      if totalFiles > 0 then (totalDeps : ℚ) / (totalFiles : ℚ) else 0
    mostConnectedFile := scan.2.1
    leastConnectedFiles := scan.2.2 }

/-! ## The pipeline (`analyzeDependencies`, lines 40–67 and 614–617) -/

/-- The first pass of `analyzeDependencies`: parse every collected file into
the node map (an unreadable file is silently skipped and contributes no
node). -/
def parsedNodes (fs : FileSys) (files : List String) : NodeMap :=
  files.foldl
    (fun acc fp =>
      match parseFile fs fp with
      | some (k, node) => setKey acc k node
      | none => acc)
    []

/-- The passes of `analyzeDependencies` that run after file collection
succeeded: parse every file (the first pass), build edges and dependents (the
second), detect cycles (the third), compute clusters (the fourth) and finally
the statistics. -/
def analyzeFrom (fs : FileSys) (files : List String) : DependencyGraph :=
  let built := buildDependencyGraph (parsedNodes fs files)
  let cycles := detectCircularDependencies built.1
  let clustered := calculateClusters built.1
  { nodes := clustered.1
    edges := built.2
    clusters := clustered.2
    circularDependencies := cycles
    stats := calculateStats clustered.1 built.2 cycles }

/-- `analyzeDependencies(targetPath)` with `targetPath = rootPath` (which is
how the exported `analyzeDependencies` entry point calls it): collect files —
a missing root makes `fs.stat` throw and the promise reject (`.error`), before
any file is parsed — then run every later pass. -/
def analyzeDependencies (fs : FileSys) : Except Unit DependencyGraph :=
  match collectFiles fs with
  | .error e => .error e
  | .ok files => .ok (analyzeFrom fs files)

/-- The empty graph (used only to project an `Except` result). -/
def emptyGraph : DependencyGraph :=
  { nodes := [], edges := [], clusters := [], circularDependencies := []
    stats := { totalFiles := 0, totalDependencies := 0,
               externalDependencies := 0, circularDependencies := 0,
               maxDepth := 0, avgDependenciesPerFile := 0,
               mostConnectedFile := "", leastConnectedFiles := [] } }

/-- Project a successful analysis result. -/
def getGraph : Except Unit DependencyGraph → DependencyGraph
  | .ok g => g
  | .error _ => emptyGraph

/-! ## Structured symbol extraction (`ast-symbols.ts`, appended to
`src/explorer.ts`) -/

/-- `enum SymbolKind` of `types.ts` (the kinds `extractASTSymbols` uses). -/
inductive SymbolKind where
  | Function
  | Class
  | Interface
  | Type
  | Enum
  | Const
  | Variable
  | Component
deriving DecidableEq, Repr

/-- `interface Symbol` of `types.ts` as produced by `extractASTSymbols` (which
always sets the line). -/
structure Symbol where
  name : String
  kind : SymbolKind
  exported : Bool
  line : Nat
deriving DecidableEq, Repr

/-- The initializer of a variable declaration, as far as
`handleVariableStatement` inspects it. -/
inductive Initializer where
  | arrowFunction (containsJSX : Bool)
  | functionExpression (containsJSX : Bool)
  | callExpr (callee : String)
  | otherInit
deriving DecidableEq, Repr

/-- One declaration of a variable statement: `name := none` models a
destructuring pattern (not an identifier), which the handler skips. -/
structure VarDecl where
  name : Option String
  initializer : Option Initializer
deriving DecidableEq, Repr

/-- One direct statement of a TypeScript source file, as far as
`visitTopLevel` dispatches on `node.kind`.  Declaration bodies are carried
(`body` fields) but — by design of the extractor — never looked into. -/
inductive TSStatement where
  | functionDecl (name : Option String) (exported : Bool) (line : Nat)
      (body : List TSStatement)
  | classDecl (name : Option String) (exported : Bool) (line : Nat)
      (body : List TSStatement)
  | interfaceDecl (name : String) (exported : Bool) (line : Nat)
  | typeAliasDecl (name : String) (exported : Bool) (line : Nat)
  | enumDecl (name : String) (exported : Bool) (line : Nat)
  | variableStatement (isConst : Bool) (exported : Bool) (line : Nat)
      (decls : List VarDecl)
  | exportAssignment (exprIdent : Option String) (line : Nat)
  | exportDecl
  | otherStatement
deriving Repr

/-- `isCapitalized`: JavaScript compares the first character with its
`toUpperCase` image (so non-letters count as capitalized). -/
def isCapitalized (name : String) : Bool :=
  name.length > 0 ∧ (name.data.headD ' ').toUpper = name.data.headD ' '

/-- `componentWrappers`: the fixed set of wrapper callees
`isReactComponentFromInitializer` recognizes. -/
def componentWrappers : List String :=
  ["memo", "forwardRef", "lazy", "createContext"]

/-- `handleVariableStatement` for one declaration: default kind `Variable`; a
function-valued initializer gives `Function`, upgraded to `Component` by the
capitalized-name-and-JSX heuristic; otherwise a `const` gives `Const`,
upgraded to `Component` for a capitalized name initialized by a known wrapper
call. -/
def varDeclSymbol (isConst : Bool) (exported : Bool) (line : Nat)
    (d : VarDecl) : List Symbol :=
  match d.name with
  | none => []
  | some nm =>
    let kind : SymbolKind :=
      match d.initializer with
      | some (.arrowFunction jsx) =>
        if isCapitalized nm ∧ jsx then .Component else .Function
      | some (.functionExpression jsx) =>
        if isCapitalized nm ∧ jsx then .Component else .Function
      | some (.callExpr callee) =>
        if isConst then
          if isCapitalized nm ∧ componentWrappers.contains callee then
            .Component
          else .Const
        else .Variable
      | some .otherInit => if isConst then .Const else .Variable
      | none => .Variable
    [{ name := nm, kind := kind, exported := exported, line := line }]

/-- `visitTopLevel`: dispatch on the statement kind and push the produced
symbols.  The function deliberately does **not** recurse into child nodes
(``// DO NOT recurse into child nodes - we only want top-level symbols``), so
the `body` of a function or class contributes nothing. -/
def visitTopLevel : TSStatement → List Symbol
  | .functionDecl nm exported line _ =>
    match nm with
    | some n => [{ name := n, kind := .Function, exported := exported,
                   line := line }]
    | none => []
  | .classDecl nm exported line _ =>
    match nm with
    | some n => [{ name := n, kind := .Class, exported := exported,
                   line := line }]
    | none => []
  | .interfaceDecl n exported line =>
    [{ name := n, kind := .Interface, exported := exported, line := line }]
  | .typeAliasDecl n exported line =>
    [{ name := n, kind := .Type, exported := exported, line := line }]
  | .enumDecl n exported line =>
    [{ name := n, kind := .Enum, exported := exported, line := line }]
  | .variableStatement isConst exported line decls =>
    decls.flatMap (varDeclSymbol isConst exported line)
  | .exportAssignment ident line =>
    match ident with
    | some n => [{ name := n, kind := .Function, exported := true,
                   line := line }]
    | none => []
  | .exportDecl => []
  | .otherStatement => []

/-- `extractASTSymbols(filePath)`: a read failure yields `[]` (the outer
`catch`); an extension other than `.ts`/`.tsx`/`.js`/`.jsx` (lower-cased)
yields `[]`; otherwise only the direct statements of the source file are
visited (``for (const statement of sourceFile.statements)``). -/
def extractASTSymbols (filePath : String)
    (content : Option (List TSStatement)) : List Symbol :=
  match content with
  | none => []
  | some stmts =>
    let ext := strToLower (extname filePath)
    if ext = ".tsx" ∨ ext = ".jsx" ∨ ext = ".ts" ∨ ext = ".js" then
      stmts.flatMap visitTopLevel
    else []

/-! ## Concrete example worlds used by the claim theorems -/

/-- Two `.js` files importing each other: the graph's only internal edges are
`a.js → b.js` and `b.js → a.js` (`.js` files are extracted by the regex pass
alone, so each import yields a single record and a single edge). -/
def exFS2cycle : FileSys :=
  { rootPath := "/r"
    root := some (.dir "r" true
      [ .file "a.js" (some [.importStatic "./b" none ["x"] none false])
      , .file "b.js" (some [.importStatic "./a" none ["x"] none false]) ]) }

/-- Three `.js` files importing in a ring: internal edges
`a.js → b.js → c.js → a.js`. -/
def exFS3cycle : FileSys :=
  { rootPath := "/r"
    root := some (.dir "r" true
      [ .file "a.js" (some [.importStatic "./b" none ["x"] none false])
      , .file "b.js" (some [.importStatic "./c" none ["x"] none false])
      , .file "c.js" (some [.importStatic "./a" none ["x"] none false]) ]) }

/-- A `.ts` file with a single static import of an existing internal file. -/
def exFSDouble : FileSys :=
  { rootPath := "/r"
    root := some (.dir "r" true
      [ .file "a.ts" (some [.importStatic "./b" none ["x"] none false])
      , .file "b.ts" (some []) ]) }

/-- `y.ts` imports the literal specifier `./a.ts`, and the file `a.ts` exists
at exactly that path. -/
def exFSLiteral : FileSys :=
  { rootPath := "/r"
    root := some (.dir "r" true
      [ .file "a.ts" (some [])
      , .file "y.ts" (some [.importStatic "./a.ts" none ["x"] none false]) ]) }

/-- A directory whose listing enumerates `b.ts` before `a.ts`. -/
def exFSUnsorted : FileSys :=
  { rootPath := "/r"
    root := some (.dir "r" true
      [ .file "b.ts" (some []), .file "a.ts" (some []) ]) }

/-- One file with two resolvable internal imports and one external import. -/
def exFSEdgeCount : FileSys :=
  { rootPath := "/r"
    root := some (.dir "r" true
      [ .file "a.js" (some
          [ .importStatic "./b" none ["x"] none false
          , .importStatic "./c" none ["y"] none false
          , .importStatic "react" (some "React") [] none false ])
      , .file "b.js" (some []), .file "c.js" (some []) ]) }

/-- A single file whose only raw import is external (hence unresolved). -/
def exFSExternalOnly : FileSys :=
  { rootPath := "/r"
    root := some (.dir "r" true
      [ .file "a.js" (some [.importStatic "react" (some "React") [] none false]) ]) }

/-- A `sub` cluster with three internal edges and one edge out to the root
cluster. -/
def exFSCohesion : FileSys :=
  { rootPath := "/r"
    root := some (.dir "r" true
      [ .dir "sub" true
          [ .file "a.js" (some
              [ .importStatic "./b" none ["x"] none false
              , .importStatic "./c" none ["x"] none false
              , .importStatic "./d" none ["x"] none false
              , .importStatic "../out" none ["x"] none false ])
          , .file "b.js" (some []), .file "c.js" (some [])
          , .file "d.js" (some []) ]
      , .file "out.js" (some []) ]) }

/-- A nonexistent root path: `fs.stat` throws. -/
def exFSInvalid : FileSys :=
  { rootPath := "/r", root := none }

/-- `a.ts` parses but yields nothing; `bad.ts` cannot be read at all. -/
def exFSEmptyYield : FileSys :=
  { rootPath := "/r"
    root := some (.dir "r" true
      [ .file "a.ts" (some [.other]), .file "bad.ts" none ]) }

end VTE

namespace VTE

/-! ## Infrastructure lemmas about the node map -/

/-- The ordered key list of a node map. -/
def keysOf (m : NodeMap) : List String := m.map Prod.fst

/-- The imports stored under a key. -/
def importsAt (m : NodeMap) (k : String) : Option (List DependencyInfo) :=
  (lookupNode m k).map (fun n => n.imports)

theorem hasKey_iff_mem_keys (m : NodeMap) (k : String) :
    hasKey m k = true ↔ k ∈ keysOf m := by
  constructor
  · intro h
    obtain ⟨kn, hmem, hk⟩ := List.any_eq_true.1 h
    exact List.mem_map.2 ⟨kn, hmem, of_decide_eq_true hk⟩
  · intro h
    obtain ⟨kn, hmem, hk⟩ := List.mem_map.1 h
    exact List.any_eq_true.2 ⟨kn, hmem, decide_eq_true hk⟩

theorem hasKey_congr_keys {m m' : NodeMap} (h : keysOf m = keysOf m')
    (k : String) : hasKey m k = hasKey m' k := by
  cases hm : hasKey m k with
  | true =>
    exact ((hasKey_iff_mem_keys m' k).2 (h ▸ (hasKey_iff_mem_keys m k).1 hm)).symm
  | false =>
    cases hm' : hasKey m' k with
    | false => rfl
    | true =>
      have hk := (hasKey_iff_mem_keys m k).2 (h ▸ (hasKey_iff_mem_keys m' k).1 hm')
      rw [hm] at hk
      simp at hk

theorem keysOf_mapVal (m : NodeMap)
    (f : String → DependencyNode → DependencyNode) :
    keysOf (m.map fun kn => (kn.1, f kn.1 kn.2)) = keysOf m := by
  induction m with
  | nil => rfl
  | cons kn m ih =>
    simp only [keysOf, List.map_cons] at *
    exact congrArg (List.cons kn.1) ih

theorem lookupNode_mapVal (m : NodeMap)
    (f : String → DependencyNode → DependencyNode) (k : String) :
    lookupNode (m.map fun kn => (kn.1, f kn.1 kn.2)) k =
      (lookupNode m k).map (f k) := by
  induction m with
  | nil => rfl
  | cons kn m ih =>
    simp only [List.map_cons]
    unfold lookupNode
    by_cases h : kn.1 = k
    · rw [List.find?_cons_of_pos _ (by simpa using h),
        List.find?_cons_of_pos _ (by simpa using h)]
      simp [h]
    · rw [List.find?_cons_of_neg _ (by simpa using h),
        List.find?_cons_of_neg _ (by simpa using h)]
      exact ih

theorem lookup_of_mem_nodup {m : NodeMap} (hnd : (keysOf m).Nodup)
    {kn : String × DependencyNode} (h : kn ∈ m) :
    lookupNode m kn.1 = some kn.2 := by
  induction m with
  | nil => cases h
  | cons hd m ih =>
    rcases List.mem_cons.1 h with rfl | hmem
    · unfold lookupNode
      rw [List.find?_cons_of_pos _ (by simp)]
      rfl
    · have hne : hd.1 ≠ kn.1 := by
        intro he
        have hmk : kn.1 ∈ keysOf m := List.mem_map.2 ⟨kn, hmem, rfl⟩
        rw [← he] at hmk
        exact (List.nodup_cons.1 hnd).1 hmk
      have hnd' : (keysOf m).Nodup := (List.nodup_cons.1 hnd).2
      unfold lookupNode
      rw [List.find?_cons_of_neg _ (by simpa using hne)]
      exact ih hnd' hmem

/-- A generic preservation principle for `List.foldl`. -/
theorem foldl_preserve {α β : Type} (P : β → Prop) (f : β → α → β) :
    ∀ (l : List α) (init : β), P init →
      (∀ b a, a ∈ l → P b → P (f b a)) → P (l.foldl f init)
  | [], _, h, _ => h
  | a :: l, init, h, hstep =>
    foldl_preserve P f l (f init a) (hstep init a (List.mem_cons_self a l) h)
      (fun b a' ha' hb => hstep b a' (List.mem_cons_of_mem a ha') hb)

end VTE

namespace VTE

/-! ## Preservation lemmas for the mutating passes -/

theorem keysOf_pushDependent (m : NodeMap) (t s : String) :
    keysOf (pushDependent m t s) = keysOf m :=
  keysOf_mapVal m
    (fun k n => if k = t then { n with dependents := n.dependents ++ [s] } else n)

theorem lookupNode_pushDependent (m : NodeMap) (t s k : String) :
    lookupNode (pushDependent m t s) k = (lookupNode m k).map
      (fun n => if k = t then { n with dependents := n.dependents ++ [s] } else n) :=
  lookupNode_mapVal m
    (fun k n => if k = t then { n with dependents := n.dependents ++ [s] } else n) k

theorem importsAt_pushDependent (m : NodeMap) (t s k : String) :
    importsAt (pushDependent m t s) k = importsAt m k := by
  unfold importsAt
  rw [lookupNode_pushDependent]
  cases lookupNode m k with
  | none => rfl
  | some n =>
    by_cases h : k = t <;> simp [h]

theorem mem_setKey {m : NodeMap} {k : String} {v : DependencyNode}
    {kn : String × DependencyNode} (h : kn ∈ setKey m k v) :
    kn ∈ m ∨ kn = (k, v) := by
  unfold setKey at h
  by_cases hk : hasKey m k
  · rw [if_pos hk] at h
    obtain ⟨kn0, hmem, heq⟩ := List.mem_map.1 h
    by_cases h0 : kn0.1 = k
    · right
      rw [← heq, if_pos h0, h0]
    · left
      rw [← heq, if_neg h0]
      exact hmem
  · rw [if_neg hk] at h
    rcases List.mem_append.1 h with h1 | h2
    · exact Or.inl h1
    · exact Or.inr (List.mem_singleton.1 h2)

theorem keysOf_setKey_nodup {m : NodeMap} {k : String} {v : DependencyNode}
    (hnd : (keysOf m).Nodup) : (keysOf (setKey m k v)).Nodup := by
  unfold setKey
  by_cases hk : hasKey m k
  · rw [if_pos hk, keysOf_mapVal m (fun k1 n => if k1 = k then v else n)]
    exact hnd
  · rw [if_neg hk]
    have hnk : k ∉ keysOf m := fun hmem =>
      hk ((hasKey_iff_mem_keys m k).2 hmem)
    have : keysOf (m ++ [(k, v)]) = keysOf m ++ [k] := by
      simp [keysOf]
    rw [this]
    simpa [List.nodup_append] using ⟨hnd, fun hmem => hnk hmem⟩

theorem parsedNodes_nodup_and_provenance (fs : FileSys) (files : List String) :
    (keysOf (parsedNodes fs files)).Nodup ∧
      ∀ kn ∈ parsedNodes fs files, ∃ fp, parseFile fs fp = some kn := by
  unfold parsedNodes
  apply foldl_preserve
    (P := fun m : NodeMap => (keysOf m).Nodup ∧
      ∀ kn ∈ m, ∃ fp, parseFile fs fp = some kn)
  · exact ⟨List.nodup_nil, fun kn h => absurd h (List.not_mem_nil kn)⟩
  · intro acc fp _ ⟨hnd, hprov⟩
    cases hp : parseFile fs fp with
    | none => exact ⟨hnd, hprov⟩
    | some knv =>
      constructor
      · exact keysOf_setKey_nodup hnd
      · intro kn hkn
        rcases mem_setKey hkn with hold | hnew
        · exact hprov kn hold
        · exact ⟨fp, by rw [hp, hnew]⟩

end VTE

namespace VTE

/-! ## What the extractors put into each record -/

theorem resolveImportPath_of_external {spec : String}
    (h : isExternalDependency spec = true) (fs : FileSys) (fromFile : String) :
    resolveImportPath fs spec fromFile = none := by
  simp [resolveImportPath, h]

/-- Every record any extraction pass produces carries `resolvedPath` computed
by the resolver from its own specifier, and the external flag computed by
`isExternalDependency` from its own specifier. -/
theorem extractDependencies_spec (fs : FileSys) (fp : String)
    (content : List Stmt) :
    ∀ dep ∈ extractDependencies fs fp content,
      dep.resolvedPath = resolveImportPath fs dep.path fp ∧
        dep.isExternal = isExternalDependency dep.path := by
  intro dep hdep
  unfold extractDependencies extractDependenciesWithRegex at hdep
  have hcases :
      dep ∈ visitImportNodes fs fp content ∨
      dep ∈ regexES6Imports fs fp content ∨
      dep ∈ regexRequires fs fp content ∨
      dep ∈ regexDynamicImports fs fp content := by
    rcases List.mem_append.1 hdep with h | h
    · split at h
      · exact Or.inl h
      · cases h
    · rcases List.mem_append.1 h with h1 | h1
      · rcases List.mem_append.1 h1 with h2 | h2
        · exact Or.inr (Or.inl h2)
        · exact Or.inr (Or.inr (Or.inl h2))
      · exact Or.inr (Or.inr (Or.inr h1))
  rcases hcases with h | h | h | h
  · obtain ⟨s, _, hmem⟩ := List.mem_flatMap.1 h
    cases s <;> simp [astImportsOfStmt] at hmem <;> subst hmem <;> exact ⟨rfl, rfl⟩
  · obtain ⟨s, _, hmem⟩ := List.mem_flatMap.1 h
    cases s <;> simp [regexES6Imports] at hmem
    case importStatic spec d named ns typeOnly =>
      rcases hmem with ⟨_, hmem⟩
      subst hmem
      exact ⟨rfl, rfl⟩
  · obtain ⟨s, _, hmem⟩ := List.mem_flatMap.1 h
    cases s <;> simp at hmem
    case requireCall spec =>
      subst hmem
      exact ⟨rfl, rfl⟩
  · obtain ⟨s, _, hmem⟩ := List.mem_flatMap.1 h
    cases s <;> simp at hmem
    case dynamicImport spec =>
      subst hmem
      exact ⟨rfl, rfl⟩

/-! ## The graph-builder invariant -/

theorem mem_of_lookupNode {m : NodeMap} {k : String} {n : DependencyNode}
    (h : lookupNode m k = some n) : (k, n) ∈ m := by
  unfold lookupNode at h
  cases hf : m.find? (fun kn => kn.1 = k) with
  | none =>
    rw [hf] at h
    cases h
  | some kn =>
    rw [hf] at h
    have hp := List.find?_some hf
    have hk : kn.1 = k := by simpa using hp
    have hn : kn.2 = n := by simpa using h
    have hkn : kn = (k, n) := by
      cases kn
      simp_all
    rw [← hkn]
    exact List.mem_of_find?_eq_some hf

/-- What `buildDependencyGraph` guarantees about every edge it creates, stated
against the node map it started from: both endpoints are keys, and the edge
stems from an import record of its source node that resolved to its target. -/
def goodEdge (nodes0 : NodeMap) (e : DependencyEdge) : Prop :=
  hasKey nodes0 e.«from» = true ∧ hasKey nodes0 e.«to» = true ∧
    ∃ n dep, lookupNode nodes0 e.«from» = some n ∧ dep ∈ n.imports ∧
      dep.resolvedPath = some e.«to» ∧ dep.type = e.type ∧
      dep.imported = e.imported

theorem addEdgesForNode_inv (nodes0 : NodeMap) (filePath : String)
    (n0 : DependencyNode) (hlk : lookupNode nodes0 filePath = some n0) :
    ∀ (imports : List DependencyInfo), (∀ d ∈ imports, d ∈ n0.imports) →
      ∀ (acc : NodeMap × List DependencyEdge),
        keysOf acc.1 = keysOf nodes0 →
        (∀ k, importsAt acc.1 k = importsAt nodes0 k) →
        (∀ e ∈ acc.2, goodEdge nodes0 e) →
        keysOf (addEdgesForNode filePath imports acc).1 = keysOf nodes0 ∧
          (∀ k, importsAt (addEdgesForNode filePath imports acc).1 k =
            importsAt nodes0 k) ∧
          ∀ e ∈ (addEdgesForNode filePath imports acc).2, goodEdge nodes0 e := by
  intro imports
  induction imports with
  | nil =>
    intro _ acc hkeys himp hed
    exact ⟨hkeys, himp, hed⟩
  | cons dep rest ih =>
    intro hsub acc hkeys himp hed
    have hdep : dep ∈ n0.imports := hsub dep (List.mem_cons_self dep rest)
    have hsub' : ∀ d ∈ rest, d ∈ n0.imports := fun d hd =>
      hsub d (List.mem_cons_of_mem dep hd)
    show keysOf (addEdgesForNode filePath (dep :: rest) acc).1 = _ ∧ _
    have hstep : addEdgesForNode filePath (dep :: rest) acc =
        addEdgesForNode filePath rest
          (match dep.resolvedPath with
            | some t =>
              if hasKey acc.1 t then
                (pushDependent acc.1 t filePath,
                  acc.2 ++ [{ «from» := filePath, «to» := t, type := dep.type,
                              weight := 1, imported := dep.imported }])
              else acc
            | none => acc) := rfl
    rw [hstep]
    cases hrp : dep.resolvedPath with
    | none =>
      simp only [hrp]
      exact ih hsub' acc hkeys himp hed
    | some t =>
      simp only [hrp]
      by_cases hk : hasKey acc.1 t
      · rw [if_pos hk]
        apply ih hsub'
        · rw [keysOf_pushDependent]
          exact hkeys
        · intro k
          rw [importsAt_pushDependent]
          exact himp k
        · intro e he
          rcases List.mem_append.1 he with hold | hnew
          · exact hed e hold
          · have he' := List.mem_singleton.1 hnew
            subst he'
            refine ⟨?_, ?_, n0, dep, hlk, hdep, ?_, rfl, rfl⟩
            · exact (hasKey_iff_mem_keys nodes0 filePath).2
                (List.mem_map.2 ⟨(filePath, n0), mem_of_lookupNode hlk, rfl⟩)
            · rw [← hasKey_congr_keys hkeys t]
              exact hk
            · exact hrp
      · rw [if_neg hk]
        exact ih hsub' acc hkeys himp hed

theorem buildDependencyGraph_inv (nodes0 : NodeMap)
    (hnd : (keysOf nodes0).Nodup) :
    keysOf (buildDependencyGraph nodes0).1 = keysOf nodes0 ∧
      (∀ k, importsAt (buildDependencyGraph nodes0).1 k = importsAt nodes0 k) ∧
      ∀ e ∈ (buildDependencyGraph nodes0).2, goodEdge nodes0 e := by
  unfold buildDependencyGraph
  apply foldl_preserve
    (P := fun acc : NodeMap × List DependencyEdge =>
      keysOf acc.1 = keysOf nodes0 ∧
        (∀ k, importsAt acc.1 k = importsAt nodes0 k) ∧
        ∀ e ∈ acc.2, goodEdge nodes0 e)
  · exact ⟨rfl, fun _ => rfl, fun e he => absurd he (List.not_mem_nil e)⟩
  · intro acc kn hkn ⟨hkeys, himp, hed⟩
    exact addEdgesForNode_inv nodes0 kn.1 kn.2 (lookup_of_mem_nodup hnd hkn)
      kn.2.imports (fun _ hd => hd) acc hkeys himp hed

end VTE

namespace VTE

/-! ## Cluster-pass lemmas -/

theorem keysOf_setClusterOn (m : NodeMap) (t cid : String) :
    keysOf (setClusterOn m t cid) = keysOf m :=
  keysOf_mapVal m (fun k n => if k = t then { n with cluster := some cid } else n)

theorem importsAt_setClusterOn (m : NodeMap) (t cid k : String) :
    importsAt (setClusterOn m t cid) k = importsAt m k := by
  unfold importsAt setClusterOn
  rw [lookupNode_mapVal m
    (fun k n => if k = t then { n with cluster := some cid } else n) k]
  cases lookupNode m k with
  | none => rfl
  | some n =>
    by_cases h : k = t <;> simp [h]

theorem assignClusters_preserves (nodes : NodeMap) :
    keysOf (assignClusters nodes).1 = keysOf nodes ∧
      ∀ k, importsAt (assignClusters nodes).1 k = importsAt nodes k := by
  unfold assignClusters
  apply foldl_preserve
    (P := fun acc : NodeMap × List ModuleCluster =>
      keysOf acc.1 = keysOf nodes ∧
        ∀ k, importsAt acc.1 k = importsAt nodes k)
  · exact ⟨rfl, fun _ => rfl⟩
  · intro acc kn _ hP
    refine ⟨?_, ?_⟩
    · rw [keysOf_setClusterOn]
      exact hP.1
    · intro k
      rw [importsAt_setClusterOn]
      exact hP.2 k

/-- The boolean version of "this import is counted as internal for cluster
`cid`": it has a resolved path whose node exists and carries the cluster id. -/
def isInternalDep (nodes : NodeMap) (cid : String) (dep : DependencyInfo) : Bool :=
  match dep.resolvedPath with
  | some rp =>
    match lookupNode nodes rp with
    | some depNode => depNode.cluster = some cid
    | none => false
  | none => false

/-- The boolean version of "this import is counted as external for cluster
`cid`": it has a resolved path, but the target node is missing or carries a
different cluster id.  An import with no resolved path satisfies neither
predicate. -/
def isExternalCountedDep (nodes : NodeMap) (cid : String)
    (dep : DependencyInfo) : Bool :=
  match dep.resolvedPath with
  | some rp =>
    match lookupNode nodes rp with
    | some depNode => ¬depNode.cluster = some cid
    | none => true
  | none => false

theorem depClusterCount_foldl (nodes : NodeMap) (cid : String)
    (deps : List DependencyInfo) :
    ∀ ie : Nat × Nat,
      deps.foldl (depClusterCount nodes cid) ie =
        (ie.1 + deps.countP (isInternalDep nodes cid),
          ie.2 + deps.countP (isExternalCountedDep nodes cid)) := by
  induction deps with
  | nil => intro ie; simp
  | cons d rest ih =>
    intro ie
    rw [List.foldl_cons, ih]
    cases hrp : d.resolvedPath with
    | none =>
      simp [depClusterCount, hrp, isInternalDep, isExternalCountedDep,
        List.countP_cons]
    | some rp =>
      cases hlk : lookupNode nodes rp with
      | none =>
        simp [depClusterCount, hrp, hlk, isInternalDep, isExternalCountedDep,
          List.countP_cons]
        omega
      | some depNode =>
        by_cases hc : depNode.cluster = some cid
        · simp [depClusterCount, hrp, hlk, isInternalDep, isExternalCountedDep,
            List.countP_cons, hc]
          omega
        · simp [depClusterCount, hrp, hlk, isInternalDep, isExternalCountedDep,
            List.countP_cons, hc]
          omega

theorem clusterMetrics_counts (nodes : NodeMap) (c : ModuleCluster) :
    (clusterMetrics nodes c).internalDependencies =
        (c.files.flatMap (importsOf nodes)).countP (isInternalDep nodes c.id) ∧
      (clusterMetrics nodes c).externalDependencies =
        (c.files.flatMap (importsOf nodes)).countP
          (isExternalCountedDep nodes c.id) := by
  have key : ∀ (files : List String) (ie : Nat × Nat),
      files.foldl
        (fun ie fp => (importsOf nodes fp).foldl (depClusterCount nodes c.id) ie)
        ie =
      (ie.1 + (files.flatMap (importsOf nodes)).countP (isInternalDep nodes c.id),
        ie.2 + (files.flatMap (importsOf nodes)).countP
          (isExternalCountedDep nodes c.id)) := by
    intro files
    induction files with
    | nil => intro ie; simp
    | cons fp rest ih =>
      intro ie
      rw [List.foldl_cons, depClusterCount_foldl, ih]
      simp [List.countP_append]
      omega
  unfold clusterMetrics
  rw [key c.files (0, 0)]
  simp

end VTE

namespace VTE

/-! ## Cohesion arithmetic -/

theorem clusterMetrics_cohesion_eq (nodes : NodeMap) (c : ModuleCluster) :
    (clusterMetrics nodes c).cohesion =
      (if (clusterMetrics nodes c).internalDependencies +
            (clusterMetrics nodes c).externalDependencies > 0 then
        ((clusterMetrics nodes c).internalDependencies : ℚ) /
          (((clusterMetrics nodes c).internalDependencies : ℚ) +
            ((clusterMetrics nodes c).externalDependencies : ℚ))
      else 0) := rfl

theorem cohesionFormula_bounds (i e : Nat) :
    0 ≤ (if i + e > 0 then (i : ℚ) / ((i : ℚ) + (e : ℚ)) else 0) ∧
      (if i + e > 0 then (i : ℚ) / ((i : ℚ) + (e : ℚ)) else 0) ≤ 1 := by
  split
  next h =>
    have hpos : (0 : ℚ) < (i : ℚ) + (e : ℚ) := by
      have h1 : (0 : ℚ) < ((i + e : ℕ) : ℚ) := by exact_mod_cast h
      rw [Nat.cast_add] at h1
      exact h1
    constructor
    · positivity
    · rw [div_le_one hpos]
      have he : (0 : ℚ) ≤ (e : ℚ) := Nat.cast_nonneg e
      linarith
  next => norm_num

/-! ## Shape of every recorded cycle -/

/-- The relation that ties the three fields of every cycle record together:
the `length` field is the entry count of the `cycle` array minus one, and the
classification compares the entry count — which includes the closing repeat of
the start node — with 2.  So `"direct"` is only ever given to a self-import
(one distinct node), and every cycle over two or more distinct nodes is
`"indirect"`. -/
def cycleShape (c : CircularDependency) : Prop :=
  c.length = c.cycle.length - 1 ∧
    c.type = if c.cycle.length = 2 then "direct" else "indirect"

theorem mkCycle_shape (path : List String) (target : String) :
    cycleShape (mkCycle path target) :=
  ⟨rfl, rfl⟩

theorem dfsForCycles_shape (nodes : NodeMap) :
    ∀ (fuel : Nat) (current : String) (visited recStack path : List String)
      (cycles : List CircularDependency),
      (∀ c ∈ cycles, cycleShape c) →
      ∀ c ∈ (dfsForCycles nodes fuel current visited recStack path cycles).2,
        cycleShape c := by
  intro fuel
  induction fuel with
  | zero =>
    intro current visited recStack path cycles hc c hcm
    exact hc c hcm
  | succ fuel ih =>
    intro current visited recStack path cycles hc
    unfold dfsForCycles
    cases lookupNode nodes current with
    | none =>
      intro c hcm
      exact hc c hcm
    | some node =>
      simp only
      apply foldl_preserve
        (P := fun acc : List String × List CircularDependency =>
          ∀ c ∈ acc.2, cycleShape c)
      · exact hc
      · intro acc dep _ hacc
        cases hrp : dep.resolvedPath with
        | none =>
          simp only [hrp]
          exact hacc
        | some target =>
          simp only [hrp]
          by_cases hk : hasKey nodes target
          · rw [if_pos hk]
            by_cases hrs : (recStack ++ [current]).contains target
            · rw [if_pos hrs]
              intro c hcm
              rcases List.mem_append.1 hcm with hold | hnew
              · exact hacc c hold
              · rw [List.mem_singleton.1 hnew]
                exact mkCycle_shape _ _
            · rw [if_neg hrs]
              by_cases hv : acc.1.contains target
              · rw [if_neg (by simpa using hv)]
                exact hacc
              · rw [if_pos (by simpa using hv)]
                exact ih target acc.1 (recStack ++ [current])
                  (path ++ [current]) acc.2 hacc
          · rw [if_neg hk]
            exact hacc

theorem detectCircularDependencies_shape (nodes : NodeMap) :
    ∀ c ∈ detectCircularDependencies nodes, cycleShape c := by
  unfold detectCircularDependencies
  apply foldl_preserve
    (P := fun acc : List String × List CircularDependency =>
      ∀ c ∈ acc.2, cycleShape c)
  · intro c hc
    exact absurd hc (List.not_mem_nil c)
  · intro acc kn _ hacc
    by_cases hv : acc.1.contains kn.1
    · rw [if_pos hv]
      exact hacc
    · rw [if_neg hv]
      exact dfsForCycles_shape nodes (nodes.length + 1) kn.1 acc.1 [] [] acc.2 hacc

/-! ## Collector lemmas -/

theorem traverseEntry_dir_eq (dirPath nm : String) (r : Bool)
    (sub : List FSEntry) :
    traverseEntry dirPath (.dir nm r sub) =
      if ¬strStartsWith nm "." ∧ nm ≠ "node_modules" then
        if r then traverseEntries (pathJoin dirPath nm) sub else []
      else [] := rfl

theorem traverseEntries_cons (dirPath : String) (e : FSEntry)
    (rest : List FSEntry) :
    traverseEntries dirPath (e :: rest) =
      traverseEntry dirPath e ++ traverseEntries dirPath rest := rfl

theorem traverseEntries_skip_dir (dirPath nm : String) (r : Bool)
    (sub rest : List FSEntry)
    (h : strStartsWith nm "." = true ∨ nm = "node_modules") :
    traverseEntries dirPath (.dir nm r sub :: rest) =
      traverseEntries dirPath rest := by
  rw [traverseEntries_cons, traverseEntry_dir_eq, if_neg, List.nil_append]
  rcases h with h | h
  · intro hcon
    have h1 := hcon.1
    rw [h] at h1
    simp at h1
  · intro hcon
    exact hcon.2 h

theorem traverseEntries_unreadable_dir (dirPath nm : String)
    (sub rest : List FSEntry) :
    traverseEntries dirPath (.dir nm false sub :: rest) =
      traverseEntries dirPath rest := by
  rw [traverseEntries_cons, traverseEntry_dir_eq]
  by_cases h : ¬strStartsWith nm "." ∧ nm ≠ "node_modules"
  · rw [if_pos h, if_neg (by simp), List.nil_append]
  · rw [if_neg h, List.nil_append]

end VTE

namespace VTE

/-! ## Resolver-order characterization -/

/-- The full candidate list the resolver loop probes, in probe order: for each
recognized extension (priority order) the literal-plus-extension candidate and
then the `index` candidate.  The literal path itself is *not* in this list. -/
def resolutionCandidates (resolved : String) : List String :=
  fileExtensions.flatMap fun ext =>
    [resolved ++ ext, pathJoin resolved ("index" ++ ext)]

theorem findSome?_two_candidates (p : String → Bool) (f : String → String)
    (resolved : String) :
    ∀ exts : List String,
      (exts.findSome? fun ext =>
        if p (resolved ++ ext) then some (f (resolved ++ ext))
        else if p (pathJoin resolved ("index" ++ ext)) then
          some (f (pathJoin resolved ("index" ++ ext)))
        else none) =
      ((exts.flatMap fun ext =>
        [resolved ++ ext, pathJoin resolved ("index" ++ ext)]).find? p).map f := by
  intro exts
  induction exts with
  | nil => rfl
  | cons ext rest ih =>
    have hflat : ((ext :: rest).flatMap fun ext =>
        [resolved ++ ext, pathJoin resolved ("index" ++ ext)]) =
        (resolved ++ ext) :: pathJoin resolved ("index" ++ ext) ::
          (rest.flatMap fun ext =>
            [resolved ++ ext, pathJoin resolved ("index" ++ ext)]) := rfl
    rw [hflat]
    by_cases h1 : p (resolved ++ ext)
    · rw [List.findSome?_cons, if_pos h1, List.find?_cons_of_pos _ h1]
      rfl
    · by_cases h2 : p (pathJoin resolved ("index" ++ ext))
      · rw [List.findSome?_cons, if_neg h1, if_pos h2,
          List.find?_cons_of_neg _ (by simpa using h1),
          List.find?_cons_of_pos _ h2]
        rfl
      · rw [List.findSome?_cons, if_neg h1, if_neg h2,
          List.find?_cons_of_neg _ (by simpa using h1),
          List.find?_cons_of_neg _ (by simpa using h2)]
        exact ih

theorem resolveImportPath_eq_candidates (fs : FileSys)
    (importPath fromFile : String)
    (hdot : strStartsWith importPath "." = true) :
    resolveImportPath fs importPath fromFile =
      ((resolutionCandidates (pathResolve (dirname fromFile) importPath)).find?
        fs.statIsFile).map (pathRelative fs.rootPath) := by
  have hext : isExternalDependency importPath = false := by
    simp [isExternalDependency, hdot]
  unfold resolveImportPath
  rw [if_neg (by simp [hext]), if_pos (by simp [hdot])]
  exact findSome?_two_candidates fs.statIsFile (pathRelative fs.rootPath) _
    fileExtensions

theorem slash_dot_impossible {s : String}
    (hdot : strStartsWith s "." = true)
    (hslash : strStartsWith s "/" = true) : False := by
  unfold strStartsWith at hdot hslash
  have h1 : ("." : String).data = ['.'] := rfl
  have h2 : ("/" : String).data = ['/'] := rfl
  rw [h1] at hdot
  rw [h2] at hslash
  cases hd : s.data with
  | nil =>
    rw [hd] at hdot
    simp [List.isPrefixOf] at hdot
  | cons x xs =>
    rw [hd] at hdot hslash
    simp [List.isPrefixOf] at hdot hslash
    rw [← hdot] at hslash
    exact absurd hslash (by decide)

/-- A specifier starting with `/` is internal (not external) but no candidate
is ever probed for it: resolution always leaves it unresolved. -/
theorem resolveImportPath_slash (fs : FileSys) (importPath fromFile : String)
    (hslash : strStartsWith importPath "/" = true) :
    resolveImportPath fs importPath fromFile = none ∧
      isExternalDependency importPath = false := by
  have hext : isExternalDependency importPath = false := by
    simp [isExternalDependency, hslash]
  refine ⟨?_, hext⟩
  unfold resolveImportPath
  rw [if_neg (by simp [hext])]
  by_cases hdot : strStartsWith importPath "." = true
  · exact absurd (slash_dot_impossible hdot hslash) id
  · rw [if_neg (by simpa using hdot)]

theorem append_ext_ne (resolved ext : String) (hlen : 0 < ext.length) :
    resolved ++ ext ≠ resolved := by
  intro h
  have hl : (resolved ++ ext).length = resolved.length :=
    congrArg String.length h
  rw [String.length_append] at hl
  omega

/-- The literal specifier path, with no extension appended, is never among the
probed candidates of the form `resolved ++ ext`. -/
theorem literal_not_probed (resolved : String) :
    ∀ ext ∈ fileExtensions, resolved ++ ext ≠ resolved := by
  intro ext hext
  apply append_ext_ne
  fin_cases hext <;> decide

end VTE

namespace VTE

/-! ## Counting edges grouped by their source key -/

theorem countP_partition {α : Type} (p q : α → Bool) (l : List α) :
    l.countP p =
      (l.filter q).countP p + (l.filter (fun a => !q a)).countP p := by
  induction l with
  | nil => simp
  | cons a l ih =>
    by_cases hq : q a <;> by_cases hp : p a <;>
      simp [hq, hp, List.countP_cons, List.filter_cons, ih] <;> omega

theorem countP_const_key {E : Type} (key : E → String) (B : String → Bool)
    (k : String) : ∀ l : List E, (∀ e ∈ l, key e = k) →
    l.countP (fun e => B (key e)) = if B k then l.length else 0 := by
  intro l
  induction l with
  | nil => simp
  | cons e l ih =>
    intro hall
    have hek : key e = k := hall e (List.mem_cons_self e l)
    have ih' := ih (fun e' he' => hall e' (List.mem_cons_of_mem _ he'))
    by_cases hB : B k <;> simp [List.countP_cons, hek, hB, ih']

/-- Counting the elements whose key satisfies `B` equals, when every key
occurs in a duplicate-free key list, summing per key the group sizes of the
keys satisfying `B`. -/
theorem countP_key_sum {E : Type} (key : E → String) (B : String → Bool) :
    ∀ (keys : List String) (l : List E),
      (∀ e ∈ l, key e ∈ keys) → keys.Nodup →
      l.countP (fun e => B (key e)) =
        (keys.map fun k =>
          if B k then (l.filter (fun e => key e = k)).length else 0).sum := by
  intro keys
  induction keys with
  | nil =>
    intro l hmem _
    cases l with
    | nil => simp
    | cons e l =>
      exact absurd (hmem e (List.mem_cons_self e l)) (List.not_mem_nil _)
  | cons k ks ih =>
    intro l hmem hnd
    rw [countP_partition (fun e => B (key e)) (fun e => key e = k) l]
    have h1 : (l.filter (fun e => key e = k)).countP (fun e => B (key e)) =
        if B k then (l.filter (fun e => key e = k)).length else 0 :=
      countP_const_key key B k _ (fun e he => by
        have h := List.of_mem_filter he
        exact of_decide_eq_true h)
    have hmem2 : ∀ e ∈ l.filter (fun e => !decide (key e = k)), key e ∈ ks := by
      intro e he
      have h3 := List.of_mem_filter he
      have h4 : key e ∈ k :: ks := hmem e (List.mem_of_mem_filter he)
      rcases List.mem_cons.1 h4 with h5 | h5
      · rw [h5] at h3
        simp at h3
      · exact h5
    have h2 := ih (l.filter (fun e => !decide (key e = k))) hmem2
      (List.nodup_cons.1 hnd).2
    rw [h1, h2]
    simp only [List.map_cons, List.sum_cons]
    congr 1
    apply congrArg
    apply List.map_congr_left
    intro k' hk'
    have hkk' : ¬k' = k := fun he => (List.nodup_cons.1 hnd).1 (he ▸ hk')
    have hfilter :
        (l.filter (fun e => !decide (key e = k))).filter
            (fun e => key e = k') =
          l.filter (fun e => key e = k') := by
      rw [List.filter_filter]
      apply List.filter_congr
      intro a _
      by_cases ha : key a = k'
      · simp [ha, hkk']
      · simp [ha]
    rw [hfilter]

end VTE

namespace VTE

/-! ## Anatomy of a successful analysis -/

theorem analyzeDependencies_ok_eq {fs : FileSys} {g : DependencyGraph}
    (h : analyzeDependencies fs = .ok g) :
    ∃ files, collectFiles fs = .ok files ∧ g = analyzeFrom fs files := by
  unfold analyzeDependencies at h
  cases hc : collectFiles fs with
  | error e =>
    rw [hc] at h
    cases h
  | ok files =>
    rw [hc] at h
    injection h with h'
    exact ⟨files, rfl, h'.symm⟩

theorem parseFile_imports {fs : FileSys} {fp k : String} {n : DependencyNode}
    (h : parseFile fs fp = some (k, n)) :
    ∃ content, fs.readFile fp = some content ∧
      n.imports = extractDependencies fs fp content := by
  unfold parseFile at h
  cases hr : fs.readFile fp with
  | none =>
    rw [hr] at h
    cases h
  | some content =>
    rw [hr] at h
    injection h with h'
    have h2 := congrArg Prod.snd h'
    simp only [] at h2
    exact ⟨content, rfl, by rw [← h2]⟩

/-- Any import record stored in a node of the parsed map has its `resolvedPath`
and `isExternal` fields tied to its specifier by the resolver; in particular an
external record is never resolved. -/
theorem parsedNodes_imports_spec (fs : FileSys) (files : List String) :
    ∀ kn ∈ parsedNodes fs files, ∀ dep ∈ kn.2.imports,
      ∃ fp, dep.resolvedPath = resolveImportPath fs dep.path fp ∧
        dep.isExternal = isExternalDependency dep.path := by
  intro kn hkn dep hdep
  obtain ⟨fp, hp⟩ := (parsedNodes_nodup_and_provenance fs files).2 kn hkn
  obtain ⟨content, _, himp⟩ := parseFile_imports (k := kn.1) (n := kn.2)
    (by rw [hp])
  rw [himp] at hdep
  obtain ⟨h1, h2⟩ := extractDependencies_spec fs fp content dep hdep
  exact ⟨fp, h1, h2⟩

end VTE

namespace VTE

/-! ## Claim theorems -/

/-- **C2** (confirmed): for the input `exFSDouble` — a `.ts` file `a.ts` whose
only statement is one static ES-module import of the existing internal file
`b.ts` — the extraction records the import twice (once by the AST walk, once by
the regex pass that always runs afterwards on the same content): the node's
imports list holds two records with the same specifier, the graph holds two
parallel `a.ts → b.ts` edges, `b.ts`'s dependents list contains `a.ts` twice,
and `totalDependencies` counts the import twice. -/
theorem ts_static_import_double_counted :
    (lookupNode (getGraph (analyzeDependencies exFSDouble)).nodes "a.ts").map
        (fun n => n.imports.map (fun d => (d.path, d.resolvedPath))) =
      some [("./b", some "b.ts"), ("./b", some "b.ts")] ∧
    (getGraph (analyzeDependencies exFSDouble)).edges.map
        (fun e => (e.«from», e.«to»)) = [("a.ts", "b.ts"), ("a.ts", "b.ts")] ∧
    (lookupNode (getGraph (analyzeDependencies exFSDouble)).nodes "b.ts").map
        (fun n => n.dependents) = some ["a.ts", "a.ts"] ∧
    (getGraph (analyzeDependencies exFSDouble)).stats.totalDependencies = 2 := by
  refine ⟨by decide, by decide, by decide, by decide⟩

/-- **C9** (confirmed): a TypeScript file whose single top-level statement is
an exported function declaration yields exactly one symbol — the function,
kind `function`, exported — whatever statements (in particular local constant
declarations) its body contains: `visitTopLevel` never recurses into the
body. -/
theorem top_level_function_only_symbol (n : String) (line : Nat)
    (body : List TSStatement) :
    extractASTSymbols "/r/f.ts" (some [.functionDecl (some n) true line body]) =
      [{ name := n, kind := .Function, exported := true, line := line }] := rfl

end VTE

namespace VTE

/-- **C10** (confirmed): a nonexistent root makes `analyze` fail with the
single top-level error before any parsing — an `Except.error` carries no graph
at all; for every existing root the analysis always succeeds (per-file
failures never abort it); and a collected file whose parse yields nothing
still becomes a node with empty exports and imports (in `exFSEmptyYield`,
`a.ts` parses to nothing and the unreadable `bad.ts` is silently skipped
without aborting). -/
theorem analyze_error_handling :
    (∀ fs : FileSys, fs.root = none → analyzeDependencies fs = .error ()) ∧
    (∀ (fs : FileSys) (e : FSEntry), fs.root = some e →
      ∃ g, analyzeDependencies fs = .ok g) ∧
    (analyzeDependencies exFSInvalid = .error ()) ∧
    (analyzeDependencies exFSEmptyYield =
        .ok (getGraph (analyzeDependencies exFSEmptyYield)) ∧
      lookupNode (getGraph (analyzeDependencies exFSEmptyYield)).nodes "a.ts" =
        some { path := "a.ts", name := "a.ts", type := "file", exports := [],
               imports := [], dependents := [], cluster := some "root" } ∧
      (getGraph (analyzeDependencies exFSEmptyYield)).nodes.length = 1) := by
  refine ⟨?_, ?_, rfl, rfl, by decide, by decide⟩
  · intro fs h
    unfold analyzeDependencies collectFiles
    rw [h]
  · intro fs e h
    unfold analyzeDependencies collectFiles
    rw [h]
    cases e with
    | file nm c => exact ⟨_, rfl⟩
    | dir nm r es => exact ⟨_, rfl⟩

/-- **C10 witness**: the error case applied at the concrete missing root and
the success case applied at the concrete two-file world. -/
theorem analyze_error_handling_witness :
    analyzeDependencies exFSInvalid = .error () ∧
      ∃ g, analyzeDependencies exFSEmptyYield = .ok g :=
  ⟨analyze_error_handling.1 exFSInvalid rfl,
    analyze_error_handling.2.1 exFSEmptyYield
      (.dir "r" true [.file "a.ts" (some [.other]), .file "bad.ts" none]) rfl⟩

end VTE

namespace VTE

/-- **C1 counterexample**: in the world `exFS2cycle`, whose only internal
edges are `a.js → b.js` and `b.js → a.js`, cycle detection reports exactly one
cycle of length 2 — but classifies it `"indirect"`, not `"direct"` as the
claim states: the source compares the *array* length of
`[...path.slice(cycleStart), target]` (which includes the closing repeat of
the start node, hence is 3 for a two-node loop) with 2. -/
theorem two_cycle_classified_indirect :
    (getGraph (analyzeDependencies exFS2cycle)).edges.map
        (fun e => (e.«from», e.«to»)) =
      [("a.js", "b.js"), ("b.js", "a.js")] ∧
    (getGraph (analyzeDependencies exFS2cycle)).circularDependencies =
      [{ cycle := ["a.js", "b.js", "a.js"], length := 2, type := "indirect" }] ∧
    "indirect" ≠ "direct" := by
  refine ⟨by decide, by decide, by decide⟩

/-- **C1** (amended): every reported cycle's `length` field is the entry count
of its `cycle` array minus one, and its classification is `"direct"` exactly
when that array has 2 entries — i.e. only for a self-import (length 1); every
cycle over two or more distinct nodes, including the two-node loop `A→B→A`, is
classified `"indirect"`.  Concretely, `A→B→A` yields exactly one cycle of
length 2 classified `"indirect"`, and `A→B→C→A` exactly one cycle of length 3
classified `"indirect"`. -/
theorem cycle_length_classification :
    (∀ (fs : FileSys) (g : DependencyGraph), analyzeDependencies fs = .ok g →
      ∀ c ∈ g.circularDependencies,
        c.length = c.cycle.length - 1 ∧
          c.type = if c.cycle.length = 2 then "direct" else "indirect") ∧
    (getGraph (analyzeDependencies exFS2cycle)).circularDependencies =
      [{ cycle := ["a.js", "b.js", "a.js"], length := 2, type := "indirect" }] ∧
    (getGraph (analyzeDependencies exFS3cycle)).circularDependencies =
      [{ cycle := ["a.js", "b.js", "c.js", "a.js"], length := 3,
         type := "indirect" }] := by
  refine ⟨?_, by decide, by decide⟩
  intro fs g h c hc
  obtain ⟨files, _, rfl⟩ := analyzeDependencies_ok_eq h
  exact detectCircularDependencies_shape _ c hc

/-- **C1 witness**: the general classification law applied to the concrete
cycle that `exFS2cycle` produces. -/
theorem cycle_length_classification_witness :
    (2 : Nat) = (["a.js", "b.js", "a.js"] : List String).length - 1 ∧
      "indirect" =
        if (["a.js", "b.js", "a.js"] : List String).length = 2 then "direct"
        else "indirect" :=
  cycle_length_classification.1 exFS2cycle
    (getGraph (analyzeDependencies exFS2cycle)) rfl
    { cycle := ["a.js", "b.js", "a.js"], length := 2, type := "indirect" }
    (by decide)

end VTE

namespace VTE

/-- **C4 counterexample**: for a root whose directory listing enumerates
`b.ts` before `a.ts`, the collector returns the files in listing order —
`["/r/b.ts", "/r/a.ts"]` — which is not sorted (in lexicographic byte order,
`compare`-based): no sorting step exists in `collectFiles`. -/
theorem collector_output_not_sorted :
    collectFiles exFSUnsorted = .ok ["/r/b.ts", "/r/a.ts"] ∧
      ¬List.Sorted (fun a b : String => ¬compare a b = Ordering.gt)
        ["/r/b.ts", "/r/a.ts"] :=
  ⟨rfl, by decide⟩

/-- **C4** (amended): the collector's output is the depth-first traversal of
the root in *directory-listing order* (deterministic for a given listing, but
not sorted): a directory whose name starts with `.` or equals `node_modules`
is pruned — never descended into — and a directory that cannot be read
contributes nothing (silently omitted); recognized files are emitted in
listing order, as the concrete listing `[b.ts, a.ts]` shows. -/
theorem collector_prunes_and_skips :
    (∀ (dirPath nm : String) (r : Bool) (sub rest : List FSEntry),
      strStartsWith nm "." = true ∨ nm = "node_modules" →
      traverseEntries dirPath (.dir nm r sub :: rest) =
        traverseEntries dirPath rest) ∧
    (∀ (dirPath nm : String) (sub rest : List FSEntry),
      traverseEntries dirPath (.dir nm false sub :: rest) =
        traverseEntries dirPath rest) ∧
    collectFiles exFSUnsorted = .ok ["/r/b.ts", "/r/a.ts"] :=
  ⟨traverseEntries_skip_dir, traverseEntries_unreadable_dir, rfl⟩

/-- **C4 witness**: pruning applied to a concrete `node_modules` directory
and to a concrete unreadable directory. -/
theorem collector_prunes_and_skips_witness :
    traverseEntries "/r"
        (FSEntry.dir "node_modules" true [.file "x.ts" (some [])] ::
          [FSEntry.file "a.ts" (some [])]) =
      traverseEntries "/r" [FSEntry.file "a.ts" (some [])] ∧
    traverseEntries "/r"
        (FSEntry.dir "secret" false [.file "y.ts" (some [])] ::
          [FSEntry.file "a.ts" (some [])]) =
      traverseEntries "/r" [FSEntry.file "a.ts" (some [])] :=
  ⟨collector_prunes_and_skips.1 "/r" "node_modules" true
      [.file "x.ts" (some [])] [FSEntry.file "a.ts" (some [])] (Or.inr rfl),
    collector_prunes_and_skips.2.1 "/r" "secret"
      [.file "y.ts" (some [])] [FSEntry.file "a.ts" (some [])]⟩

/-- **C3 counterexample**: `y.ts` imports the literal specifier `./a.ts` and
the file `a.ts` exists at exactly that path, yet the resolver returns nothing
— the literal path as written is never probed (only extension-appended and
index candidates are), so the first candidate the claim posits is skipped;
the raw import is retained unresolved and no edge is created. -/
theorem literal_path_never_probed :
    exFSLiteral.statIsFile "/r/a.ts" = true ∧
      resolveImportPath exFSLiteral "./a.ts" "/r/y.ts" = none ∧
      (lookupNode (getGraph (analyzeDependencies exFSLiteral)).nodes
          "y.ts").map
        (fun n => n.imports.map (fun d => (d.path, d.resolvedPath))) =
        some [("./a.ts", none), ("./a.ts", none)] ∧
      (getGraph (analyzeDependencies exFSLiteral)).edges = [] := by
  refine ⟨by decide, by decide, by decide, by decide⟩

/-- **C3** (amended): for a specifier starting with `.`, the resolver probes
exactly the candidates `resolutionCandidates` lists — for each recognized
extension in priority order, first the resolved specifier with that extension
appended, then an `index` file of that extension inside the specifier
directory (the per-extension pairs are *interleaved*, and the literal path as
written is never probed) — and returns the root-relative path of the first
existing candidate, or leaves the import unresolved when none exists.  A
specifier starting with `/` is internal (not external) but never resolved; an
external specifier is never resolved. -/
theorem resolver_probe_order :
    (∀ (fs : FileSys) (importPath fromFile : String),
      strStartsWith importPath "." = true →
      resolveImportPath fs importPath fromFile =
        ((resolutionCandidates
            (pathResolve (dirname fromFile) importPath)).find?
          fs.statIsFile).map (pathRelative fs.rootPath)) ∧
    (∀ (fs : FileSys) (importPath fromFile : String),
      strStartsWith importPath "/" = true →
      resolveImportPath fs importPath fromFile = none ∧
        isExternalDependency importPath = false) ∧
    (∀ resolved : String, ∀ ext ∈ fileExtensions, resolved ++ ext ≠ resolved) ∧
    (∀ (fs : FileSys) (importPath fromFile : String),
      isExternalDependency importPath = true →
      resolveImportPath fs importPath fromFile = none) :=
  ⟨fun fs ip ff h => resolveImportPath_eq_candidates fs ip ff h,
    fun fs ip ff h => resolveImportPath_slash fs ip ff h,
    literal_not_probed,
    fun fs _ ff h => resolveImportPath_of_external h fs ff⟩

/-- **C3 witness**: the probe-order characterization applied to the concrete
specifier `./a.ts` of `exFSLiteral`, the `/`-specifier rule applied to
`/abs`, the no-literal-candidate rule applied to the first extension, and the
external rule applied to `react`. -/
theorem resolver_probe_order_witness :
    resolveImportPath exFSLiteral "./a.ts" "/r/y.ts" =
        ((resolutionCandidates
            (pathResolve (dirname "/r/y.ts") "./a.ts")).find?
          exFSLiteral.statIsFile).map (pathRelative exFSLiteral.rootPath) ∧
      (resolveImportPath exFSLiteral "/abs" "/r/y.ts" = none ∧
        isExternalDependency "/abs" = false) ∧
      "/r/a" ++ ".ts" ≠ "/r/a" ∧
      resolveImportPath exFSLiteral "react" "/r/y.ts" = none :=
  ⟨resolver_probe_order.1 exFSLiteral "./a.ts" "/r/y.ts" (by decide),
    resolver_probe_order.2.1 exFSLiteral "/abs" "/r/y.ts" (by decide),
    resolver_probe_order.2.2.1 "/r/a" ".ts" (by decide),
    resolver_probe_order.2.2.2 exFSLiteral "react" "/r/y.ts" (by decide)⟩

end VTE

namespace VTE

/-- **C6 counterexample**: in `exFSExternalOnly` the single file `a.js` has
one raw import that is external (and hence unresolved, `resolvedPath` absent);
the claim says such imports are counted as external edges of the cluster, but
the code skips every import without a `resolvedPath`, so the `root` cluster's
external edge count is 0, not 1. -/
theorem unresolved_import_not_counted :
    (getGraph (analyzeDependencies exFSExternalOnly)).clusters =
      [{ id := "root", name := "root", files := ["a.js"],
         internalDependencies := 0, externalDependencies := 0,
         cohesion := 0 }] ∧
    (lookupNode (getGraph (analyzeDependencies exFSExternalOnly)).nodes
        "a.js").map
      (fun n => n.imports.map (fun d => (d.isExternal, d.resolvedPath))) =
      some [(true, none)] := by
  refine ⟨by decide, by decide⟩

/-- **C6** (amended): for every cluster of a produced snapshot, the internal
edge count is the number of member-file imports that have a *defined*
`resolvedPath` whose target node exists and shares the cluster id, and the
external edge count is the number of member-file imports with a defined
`resolvedPath` whose target node is missing or carries a different cluster id;
imports without a `resolvedPath` — all external and all unresolved raw imports
— are counted in neither tally. -/
theorem cluster_edge_counts :
    ∀ (fs : FileSys) (g : DependencyGraph), analyzeDependencies fs = .ok g →
      ∀ c ∈ g.clusters,
        c.internalDependencies =
          (c.files.flatMap (importsOf g.nodes)).countP
            (isInternalDep g.nodes c.id) ∧
        c.externalDependencies =
          (c.files.flatMap (importsOf g.nodes)).countP
            (isExternalCountedDep g.nodes c.id) := by
  intro fs g h c hc
  obtain ⟨files, _, rfl⟩ := analyzeDependencies_ok_eq h
  obtain ⟨c0, _, rfl⟩ := List.mem_map.1 hc
  exact clusterMetrics_counts _ c0

/-- **C6 witness**: the counting law applied to the concrete `root` cluster of
`exFSExternalOnly` (its one import has no `resolvedPath`, so both tallies are
0). -/
theorem cluster_edge_counts_witness :
    (0 : Nat) =
        ((["a.js"] : List String).flatMap
          (importsOf
            (getGraph (analyzeDependencies exFSExternalOnly)).nodes)).countP
          (isInternalDep
            (getGraph (analyzeDependencies exFSExternalOnly)).nodes "root") ∧
      (0 : Nat) =
        ((["a.js"] : List String).flatMap
          (importsOf
            (getGraph (analyzeDependencies exFSExternalOnly)).nodes)).countP
          (isExternalCountedDep
            (getGraph (analyzeDependencies exFSExternalOnly)).nodes "root") :=
  cluster_edge_counts exFSExternalOnly
    (getGraph (analyzeDependencies exFSExternalOnly)) rfl
    { id := "root", name := "root", files := ["a.js"],
      internalDependencies := 0, externalDependencies := 0, cohesion := 0 }
    (by decide)

/-- **C8** (confirmed): for every cluster of a produced snapshot, cohesion
equals `internal / (internal + external)` when `internal + external > 0` and
is exactly `0` on a zero denominator (never undefined), so it always lies in
`[0, 1]`; concretely, the `sub` cluster of `exFSCohesion` has 3 internal
edges, 1 external edge and cohesion `3/4`. -/
theorem cluster_cohesion_wellformed :
    (∀ (fs : FileSys) (g : DependencyGraph), analyzeDependencies fs = .ok g →
      ∀ c ∈ g.clusters,
        c.cohesion =
          (if c.internalDependencies + c.externalDependencies > 0 then
            (c.internalDependencies : ℚ) /
              ((c.internalDependencies : ℚ) + (c.externalDependencies : ℚ))
          else 0) ∧
        0 ≤ c.cohesion ∧ c.cohesion ≤ 1) ∧
    (getGraph (analyzeDependencies exFSCohesion)).clusters.map
        (fun c => (c.internalDependencies, c.externalDependencies,
          c.cohesion)) = [(3, 1, (3 : ℚ)/4), (0, 0, 0)] := by
  refine ⟨?_, by with_unfolding_all rfl⟩
  intro fs g h c hc
  obtain ⟨files, _, rfl⟩ := analyzeDependencies_ok_eq h
  obtain ⟨c0, _, rfl⟩ := List.mem_map.1 hc
  refine ⟨clusterMetrics_cohesion_eq _ c0, ?_, ?_⟩
  · rw [clusterMetrics_cohesion_eq]
    exact (cohesionFormula_bounds _ _).1
  · rw [clusterMetrics_cohesion_eq]
    exact (cohesionFormula_bounds _ _).2

/-- **C8 witness**: the cohesion law applied to the concrete `sub` cluster of
`exFSCohesion` (3 internal, 1 external, cohesion `3/4 ∈ [0, 1]`). -/
theorem cluster_cohesion_wellformed_witness :
    ((3 : ℚ)/4 =
        if (3 : Nat) + (1 : Nat) > 0 then
          (((3 : Nat) : ℚ)) / (((3 : Nat) : ℚ) + ((1 : Nat) : ℚ))
        else 0) ∧
      0 ≤ (3 : ℚ)/4 ∧ (3 : ℚ)/4 ≤ 1 :=
  cluster_cohesion_wellformed.1 exFSCohesion
    (getGraph (analyzeDependencies exFSCohesion)) rfl
    { id := "sub", name := "sub",
      files := ["sub/a.js", "sub/b.js", "sub/c.js", "sub/d.js"],
      internalDependencies := 3, externalDependencies := 1,
      cohesion := (3 : ℚ)/4 }
    (by with_unfolding_all (exact List.mem_cons_self _ _))

end VTE

namespace VTE

theorem analyzeFrom_nodes_keys_imports (fs : FileSys) (files : List String) :
    keysOf (analyzeFrom fs files).nodes = keysOf (parsedNodes fs files) ∧
      ∀ k, importsAt (analyzeFrom fs files).nodes k =
        importsAt (parsedNodes fs files) k := by
  have hnd := (parsedNodes_nodup_and_provenance fs files).1
  obtain ⟨hbk, hbi, _⟩ := buildDependencyGraph_inv (parsedNodes fs files) hnd
  obtain ⟨hak, hai⟩ := assignClusters_preserves
    (buildDependencyGraph (parsedNodes fs files)).1
  constructor
  · calc keysOf (analyzeFrom fs files).nodes
        = keysOf (buildDependencyGraph (parsedNodes fs files)).1 := hak
      _ = keysOf (parsedNodes fs files) := hbk
  · intro k
    calc importsAt (analyzeFrom fs files).nodes k
        = importsAt (buildDependencyGraph (parsedNodes fs files)).1 k := hai k
      _ = importsAt (parsedNodes fs files) k := hbi k

/-- **C7** (confirmed): in every produced snapshot, every edge's source and
target paths are keys of the node map (no dangling edges), and every edge
stems from an import record of its source node whose `resolvedPath` is
defined and equal to the target — so edges are never created for unresolved
(no `resolvedPath`) or external (`isExternal`, hence never resolved)
specifiers. -/
theorem edges_wellformed :
    ∀ (fs : FileSys) (g : DependencyGraph), analyzeDependencies fs = .ok g →
      ∀ e ∈ g.edges,
        hasKey g.nodes e.«from» = true ∧ hasKey g.nodes e.«to» = true ∧
          ∃ n dep, lookupNode g.nodes e.«from» = some n ∧ dep ∈ n.imports ∧
            dep.resolvedPath = some e.«to» ∧ dep.isExternal = false := by
  intro fs g h e he
  obtain ⟨files, _, rfl⟩ := analyzeDependencies_ok_eq h
  have hnd := (parsedNodes_nodup_and_provenance fs files).1
  obtain ⟨_, _, hbe⟩ := buildDependencyGraph_inv (parsedNodes fs files) hnd
  obtain ⟨hkeys, himps⟩ := analyzeFrom_nodes_keys_imports fs files
  obtain ⟨hfrom, hto, n, dep, hlk, hdep, hrp, _, _⟩ := hbe e he
  refine ⟨?_, ?_, ?_⟩
  · rw [hasKey_congr_keys hkeys]
    exact hfrom
  · rw [hasKey_congr_keys hkeys]
    exact hto
  · have himp := himps e.«from»
    unfold importsAt at himp
    rw [hlk] at himp
    cases hlk' : lookupNode (analyzeFrom fs files).nodes e.«from» with
    | none =>
      rw [hlk'] at himp
      simp at himp
    | some n' =>
      rw [hlk'] at himp
      simp at himp
      have hexti : dep.isExternal = false := by
        obtain ⟨fp, hrpx, hexteq⟩ := parsedNodes_imports_spec fs files
          (e.«from», n) (mem_of_lookupNode hlk) dep hdep
        by_cases hext : isExternalDependency dep.path = true
        · have hcontr := hrp
          rw [hrpx, resolveImportPath_of_external hext fs fp] at hcontr
          cases hcontr
        · rw [hexteq]
          simpa using hext
      exact ⟨n', dep, rfl, by rw [himp]; exact hdep, hrp, hexti⟩

/-- **C7 witness**: the edge invariant applied to the first concrete edge of
`exFSDouble`'s snapshot. -/
theorem edges_wellformed_witness :
    hasKey (getGraph (analyzeDependencies exFSDouble)).nodes "a.ts" = true ∧
      hasKey (getGraph (analyzeDependencies exFSDouble)).nodes "b.ts" = true ∧
      ∃ n dep,
        lookupNode (getGraph (analyzeDependencies exFSDouble)).nodes "a.ts" =
          some n ∧ dep ∈ n.imports ∧ dep.resolvedPath = some "b.ts" ∧
          dep.isExternal = false :=
  edges_wellformed exFSDouble (getGraph (analyzeDependencies exFSDouble)) rfl
    { «from» := "a.ts", «to» := "b.ts", type := .Import, weight := 1,
      imported := some ["x"] }
    (by decide)

end VTE

namespace VTE

/-- **C5 counterexample**: in `exFSEdgeCount` exactly one file (`a.js`) has an
external raw import, but the `externalDependencies` statistic is 2: the code
filters the *edge* list (keeping each of `a.js`'s two internal edges because
their source node has an external import) instead of counting files. -/
theorem externalDependencies_not_file_count :
    (getGraph (analyzeDependencies exFSEdgeCount)).stats.externalDependencies
        = 2 ∧
      (getGraph (analyzeDependencies exFSEdgeCount)).nodes.countP
        (fun kn => kn.2.imports.any (fun i => i.isExternal)) = 1 ∧
      (2 : Nat) ≠ 1 := by
  refine ⟨by decide, by decide, by decide⟩

/-- **C5** (amended): in every produced snapshot, `externalDependencies`
equals the number of *edges* whose source node has at least one external
raw import — equivalently, summing over the nodes: each file with at least one
external raw import contributes its full outgoing-edge count, files without
one contribute nothing. -/
theorem externalDependencies_edge_sum :
    ∀ (fs : FileSys) (g : DependencyGraph), analyzeDependencies fs = .ok g →
      g.stats.externalDependencies =
        (g.nodes.map fun kn =>
          if kn.2.imports.any (fun i => i.isExternal) then
            (g.edges.filter (fun e => e.«from» = kn.1)).length
          else 0).sum := by
  intro fs g h
  obtain ⟨files, _, rfl⟩ := analyzeDependencies_ok_eq h
  have hnd0 := (parsedNodes_nodup_and_provenance fs files).1
  obtain ⟨_, _, hbe⟩ := buildDependencyGraph_inv (parsedNodes fs files) hnd0
  obtain ⟨hkeys, _⟩ := analyzeFrom_nodes_keys_imports fs files
  have hnd : (keysOf (analyzeFrom fs files).nodes).Nodup := by
    rw [hkeys]
    exact hnd0
  have hstats : (analyzeFrom fs files).stats.externalDependencies =
      ((analyzeFrom fs files).edges.filter (fun e =>
        match lookupNode (analyzeFrom fs files).nodes e.«from» with
        | some fromNode => fromNode.imports.any (fun imp => imp.isExternal)
        | none => false)).length := rfl
  rw [hstats, ← List.countP_eq_length_filter]
  have hmem : ∀ e ∈ (analyzeFrom fs files).edges,
      e.«from» ∈ keysOf (analyzeFrom fs files).nodes := by
    intro e he
    rw [hkeys]
    exact (hasKey_iff_mem_keys _ _).1 (hbe e he).1
  have hsum := countP_key_sum (fun e : DependencyEdge => e.«from»)
    (fun k =>
      match lookupNode (analyzeFrom fs files).nodes k with
      | some fromNode => fromNode.imports.any (fun imp => imp.isExternal)
      | none => false)
    (keysOf (analyzeFrom fs files).nodes) (analyzeFrom fs files).edges
    hmem hnd
  rw [hsum]
  unfold keysOf
  rw [List.map_map]
  apply congrArg
  apply List.map_congr_left
  intro kn hkn
  have hlkkn : lookupNode (analyzeFrom fs files).nodes kn.1 = some kn.2 :=
    lookup_of_mem_nodup hnd hkn
  simp only [Function.comp_apply, hlkkn]

/-- **C5 witness**: the per-node summation applied to the concrete snapshot of
`exFSEdgeCount` (the node with the external import contributes its 2 edges,
the others contribute 0). -/
theorem externalDependencies_edge_sum_witness :
    (getGraph (analyzeDependencies exFSEdgeCount)).stats.externalDependencies
      =
      ((getGraph (analyzeDependencies exFSEdgeCount)).nodes.map fun kn =>
        if kn.2.imports.any (fun i => i.isExternal) then
          ((getGraph (analyzeDependencies exFSEdgeCount)).edges.filter
            (fun e => e.«from» = kn.1)).length
        else 0).sum :=
  externalDependencies_edge_sum exFSEdgeCount
    (getGraph (analyzeDependencies exFSEdgeCount)) rfl

end VTE
